import Mathlib

/-! Normal-mode key dispatch of vimpc.

A shallow embedding of `src/mode/normal.cpp`: the key tables built by the
constructor `Normal::Normal`, the dispatcher `Normal::Handle`, and the member
functions the tables bind.

* Machine integers are natural numbers; `uint32_t` arithmetic that can wrap is
  taken modulo `2^32`, the `uint64_t` fold of `Handle` modulo `2^64`.
* `int input` is the 32-bit pattern of the key code, so bit 31 is the marker
  tested by `(input & (1 << 31)) != 0`.
* The collaborators (`screen_`, `client_`, `Player`, `search_`, the playlist,
  the paste buffer, the library and browse buffers) are not part of
  `normal.cpp`.  They are a parameter `Collab W` over an arbitrary world `W`:
  every call with an effect is a `Call`, every getter a `Query`.
* The function-local `static ActionTable * action` of `Handle` is the field
  `action` of the state.
-/

namespace Vimpc

/-! ## Constants -/

/-- The value of `1 << 31`, the escape-sequence marker bit of a key code. -/
def ESCAPE_MARKER : Nat := 2147483648

/-- The value of `std::numeric_limits<uint32_t>::max()`. -/
def UINT32_MAX : Nat := 4294967295

/-- The modulus of `uint32_t` arithmetic. -/
def UINT32_MOD : Nat := 4294967296

/-- The modulus of `uint64_t` arithmetic. -/
def UINT64_MOD : Nat := 18446744073709551616

/-- The macro `ESCAPE_KEY` of `normal.cpp`. -/
def ESCAPE_KEY : Nat := 27

/-- The curses key code `KEY_DOWN` (octal 0402). -/
def KEY_DOWN : Nat := 258
/-- The curses key code `KEY_UP` (octal 0403). -/
def KEY_UP : Nat := 259
/-- The curses key code `KEY_LEFT` (octal 0404). -/
def KEY_LEFT : Nat := 260
/-- The curses key code `KEY_RIGHT` (octal 0405). -/
def KEY_RIGHT : Nat := 261
/-- The curses key code `KEY_HOME` (octal 0406). -/
def KEY_HOME : Nat := 262
/-- The curses key code `KEY_BACKSPACE` (octal 0407). -/
def KEY_BACKSPACE : Nat := 263
/-- The curses key code `KEY_NPAGE` (octal 0522). -/
def KEY_NPAGE : Nat := 338
/-- The curses key code `KEY_PPAGE` (octal 0523). -/
def KEY_PPAGE : Nat := 339
/-- The curses key code `KEY_ENTER` (octal 0527). -/
def KEY_ENTER : Nat := 343
/-- The curses key code `KEY_END` (octal 0550). -/
def KEY_END : Nat := 360

/-! ## Enumerations used as template arguments -/

/-- The enumeration `Ui::Player::Skip`. -/
inductive PlayerSkip where
  | Next | Previous
  deriving DecidableEq, Repr

/-- The enumeration `Ui::Search::Skip`. -/
inductive SearchSkip where
  | Next | Previous
  deriving DecidableEq, Repr

/-- The enumeration `Screen::Skip`. -/
inductive ScreenSkip where
  | Absolute | Next | Previous
  deriving DecidableEq, Repr

/-- The enumeration `Screen::Size`. -/
inductive Size where
  | Line | Page
  deriving DecidableEq, Repr

/-- The enumeration `Screen::Direction`. -/
inductive Direction where
  | Up | Down
  deriving DecidableEq, Repr

/-- The enumeration `Screen::Location`. -/
inductive Location where
  | Top | Bottom | Current | Centre | Specific
  deriving DecidableEq, Repr

/-- The enumeration `ScrollWindow::Position`. -/
inductive Position where
  | First | Middle | Last
  deriving DecidableEq, Repr

/-- The enumeration `Mpc::Song::SongCollection`. -/
inductive SongCollection where
  | Single | All
  deriving DecidableEq, Repr

/-! ## Key tables -/

/-- The four key tables of `Normal`: `actionTable_`, `jumpTable_`,
`alignTable_` and `escapeTable_`. -/
inductive Table where
  | Default | Jump | Align | Escape
  deriving DecidableEq, Repr

/-- The member functions a table entry can point to (`ptrToMember`), each with
its template arguments. `ScrollToSpecific` is the two-parameter template
`ScrollTo<SPECIFIC, ENDLOCATION>`. -/
inductive Action where
  | RepeatLastAction
  | ClearScreen
  | Pause
  | Random
  | Stop
  | SkipSong (SKIP : PlayerSkip)
  | SkipArtist (SKIP : PlayerSkip)
  | SkipAlbum (SKIP : PlayerSkip)
  | Select (POSITION : Position)
  | DeleteSong (COLLECTION : SongCollection)
  | AddSong (COLLECTION : SongCollection)
  | PasteBuffer
  | Right
  | Left
  | Confirm
  | SearchResult (SKIP : SearchSkip)
  | Scroll (SIZE : Size) (DIRECTION : Direction)
  | ScrollTo (LOCATION : Location)
  | ScrollToSpecific (SPECIFIC ENDLOCATION : Location)
  | Expand
  | Collapse
  | AlignTo (LOCATION : Location)
  | SetActiveWindow (SKIP : ScreenSkip) (OFFSET : Nat)
  deriving DecidableEq, Repr

/-- The table `actionTable_` as the constructor fills it (lines 53-118), one
pair per assignment, in source order. Keys are written as their codes. -/
def actionTable : List (Nat × Action) :=
  [ (46, .RepeatLastAction),                    -- '.'
    (99, .ClearScreen),                         -- 'c'
    (112, .Pause),                              -- 'p'
    (114, .Random),                             -- 'r'
    (115, .Stop),                               -- 's'
    (KEY_BACKSPACE, .Stop),
    (62, .SkipSong .Next),                      -- '>'
    (60, .SkipSong .Previous),                  -- '<'
    (119, .SkipArtist .Next),                   -- 'w'
    (113, .SkipArtist .Previous),               -- 'q'
    (87, .SkipAlbum .Next),                     -- 'W'
    (81, .SkipAlbum .Previous),                 -- 'Q'
    (72, .Select .First),                       -- 'H'
    (77, .Select .Middle),                      -- 'M'
    (76, .Select .Last),                        -- 'L'
    (100, .DeleteSong .Single),                 -- 'd'
    (68, .DeleteSong .All),                     -- 'D'
    (97, .AddSong .Single),                     -- 'a'
    (65, .AddSong .All),                        -- 'A'
    (80, .PasteBuffer),                         -- 'P'
    (108, .Right),                              -- 'l'
    (104, .Left),                               -- 'h'
    (10, .Confirm),                             -- '\n'
    (KEY_ENTER, .Confirm),
    (78, .SearchResult .Previous),              -- 'N'
    (110, .SearchResult .Next),                 -- 'n'
    (107, .Scroll .Line .Up),                   -- 'k'
    (106, .Scroll .Line .Down),                 -- 'j'
    (KEY_PPAGE, .Scroll .Page .Up),
    (KEY_NPAGE, .Scroll .Page .Down),
    (85 + 1 - 65, .Scroll .Page .Up),           -- 'U'+1 - 'A'
    (68 + 1 - 65, .Scroll .Page .Down),         -- 'D'+1 - 'A'
    (KEY_HOME, .ScrollTo .Top),
    (102, .ScrollTo .Current),                  -- 'f'
    (KEY_END, .ScrollTo .Bottom),
    (71, .ScrollToSpecific .Specific .Bottom),  -- 'G'
    (KEY_LEFT, .Left),                          -- actionTable_['h']
    (KEY_RIGHT, .Right),                        -- actionTable_['l']
    (KEY_DOWN, .Scroll .Line .Down),            -- actionTable_['j']
    (KEY_UP, .Scroll .Line .Up),                -- actionTable_['k']
    (111, .Expand),                             -- 'o'
    (117, .Collapse) ]                          -- 'u'

/-- The table `jumpTable_` (lines 121-123). -/
def jumpTable : List (Nat × Action) :=
  [ (103, .ScrollToSpecific .Specific .Top),    -- 'g'
    (116, .SetActiveWindow .Next 0),            -- 't'
    (84, .SetActiveWindow .Previous 0) ]        -- 'T'

/-- The table `alignTable_` (lines 127-129). -/
def alignTable : List (Nat × Action) :=
  [ (46, .AlignTo .Centre),                     -- '.'
    (10, .AlignTo .Top),                        -- '\n'
    (45, .AlignTo .Bottom) ]                    -- '-'

/-- The table `escapeTable_` (lines 131-139). -/
def escapeTable : List (Nat × Action) :=
  [ (49, .SetActiveWindow .Absolute 0),         -- '1'
    (50, .SetActiveWindow .Absolute 1),
    (51, .SetActiveWindow .Absolute 2),
    (52, .SetActiveWindow .Absolute 3),
    (53, .SetActiveWindow .Absolute 4),
    (54, .SetActiveWindow .Absolute 5),
    (55, .SetActiveWindow .Absolute 6),
    (56, .SetActiveWindow .Absolute 7),
    (57, .SetActiveWindow .Absolute 8) ]        -- '9'

/-- The table a value of the pointer `action` designates. -/
def tableOf : Table → List (Nat × Action)
  | .Default => actionTable
  | .Jump => jumpTable
  | .Align => alignTable
  | .Escape => escapeTable

/-- The lookup `action->find(input)`: the member function bound to `input`,
or `none` when `find` returns `end()`. -/
def find (t : Table) (input : Nat) : Option Action :=
  (tableOf t).lookup input

/-! ## Collaborators -/

/-- The calls `normal.cpp` makes on its collaborators for their effect, each
with the arguments the source passes. Songs are opaque handles. -/
inductive Call where
  | PlayerClearScreen                                   -- Player::ClearScreen()
  | PlayerPause                                         -- Player::Pause()
  | PlayerToggleRandom                                  -- Player::ToggleRandom()
  | PlayerStop                                          -- Player::Stop()
  | PlayerSkipSong (skip : PlayerSkip) (count : Nat)    -- Player::SkipSong(SKIP, count)
  | PlayerSkipAlbum (skip : PlayerSkip) (count : Nat)   -- Player::SkipAlbum(SKIP, count)
  | PlayerSkipArtist (skip : PlayerSkip) (count : Nat)  -- Player::SkipArtist(SKIP, count)
  | SearchResult (skip : SearchSkip) (count : Nat)      -- search_.SearchResult(SKIP, count)
  | WindowLeft (count : Nat)                            -- screen_.ActiveWindow().Left(*this, count)
  | WindowRight (count : Nat)                           -- screen_.ActiveWindow().Right(*this, count)
  | WindowConfirm                                       -- screen_.ActiveWindow().Confirm()
  | WindowScroll (count : Nat)                          -- screen_.ActiveWindow().Scroll(count)
  | ScreenSelect (position : Position) (count : Nat)    -- screen_.Select(POSITION, count)
  | ScreenScroll (size : Size) (direction : Direction) (count : Nat)
  | ScreenScrollTo (location : Location)                -- screen_.ScrollTo(LOCATION)
  | ScreenScrollToSpecific (location : Location) (line : Nat) -- screen_.ScrollTo(SPECIFIC, line)
  | ScreenScrollToLine (line : Nat)                     -- screen_.ScrollTo(currentLine)
  | ScreenAlignTo (location : Location) (line : Nat)    -- screen_.AlignTo(LOCATION, line)
  | ScreenSetActiveWindow (window : Nat)                -- screen_.SetActiveWindow(static_cast<MainWindow>(n))
  | ScreenSkipActiveWindow (skip : ScreenSkip)          -- screen_.SetActiveWindow(SKIP)
  | ScreenUpdate                                        -- screen_.Update()
  | LibraryExpand (line : Nat)                          -- Main::Library().Expand(line)
  | LibraryCollapse (line : Nat)                        -- Main::Library().Collapse(line)
  | LibraryAddToPlaylist (collection : SongCollection) (line : Nat)
  | BrowseAddToPlaylist (line : Nat)                    -- Main::Browse().AddToPlaylist(client_, line)
  | PlaylistAdd (song : Nat) (position : Nat)           -- Main::Playlist().Add(song, position)
  | PlaylistRemove (index : Nat) (count : Nat)          -- playlist_.Remove(index, 1)
  | PlaylistClear                                       -- playlist_.Clear()
  | PasteBufferClear                                    -- Main::PlaylistPasteBuffer().Clear()
  | ClientDelete (index : Nat)                          -- client_.Delete(index)
  | ClientClear                                         -- client_.Clear()
  | ClientAdd (song : Nat) (position : Nat)             -- client_.Add(*song, position)
  | ModeWindowSetLine                                   -- window_->SetLine(...) of DisplayModeLine
  deriving DecidableEq, Repr

/-- The getters `normal.cpp` reads from its collaborators. -/
inductive Query where
  | GetActiveWindow              -- screen_.GetActiveWindow()
  | CurrentLine                  -- screen_.ActiveWindow().CurrentLine()
  | VisibleWindows               -- screen_.VisibleWindows()
  | PasteBufferSize              -- Main::PlaylistPasteBuffer().Size()
  | PasteBufferGet (j : Nat)     -- Main::PlaylistPasteBuffer().Get(j)
  | BrowseGet (i : Nat)          -- Main::Browse().Get(i)
  deriving DecidableEq, Repr

/-- The collaborators of `Normal` over a world `W`, which holds everything
outside the dispatcher. `exec` is the effect of a call, `reply` the value a
`bool`-returning call made in that world returns, `ask` the value of a getter
(getters have no effect), `index` the result of `Main::Playlist().Index(song)`.
`Library`, `Browse` and `Playlist` are the values of the enumerators of
`Screen::MainWindow` that `normal.cpp` compares with. -/
structure Collab (W : Type) where
  exec : Call → W → W
  reply : Call → W → Bool
  ask : Query → W → Nat
  index : Nat → W → Int
  Library : Nat
  Browse : Nat
  Playlist : Nat

/-! ## Dispatcher state -/

/-- One entry of the observation log: a member function called through
`(*this.*actionFunc)(count)`, the count passed, and the value of
`wasSpecificCount_` at the call. -/
structure Invocation where
  actionFunc : Action
  count : Nat
  specific : Bool
  deriving DecidableEq, Repr

/-- The state of a `Normal` object together with the world of its
collaborators. `action` is the function-local static pointer of `Handle`.
`trace` is an observation log of the member functions `Handle` has called, in
call order; the program never reads it. -/
structure Normal (W : Type) where
  actionCount : Nat
  lastAction : Nat
  lastActionCount : Nat
  wasSpecificCount : Bool
  action : Table
  world : W
  trace : List Invocation

/-- The state the constructor `Normal::Normal` leaves (lines 39-42), with the
static `action` at its initial value `&actionTable_`. -/
def Normal.init {W : Type} (w : W) : Normal W :=
  { actionCount := 0, lastAction := 0, lastActionCount := 0,
    wasSpecificCount := false, action := .Default, world := w, trace := [] }

/-- A collaborator call made for its effect only. -/
def Normal.call {W : Type} (c : Collab W) (s : Normal W) (k : Call) : Normal W :=
  { s with world := c.exec k s.world }

/-- A collaborator call whose `bool` result the member function returns. -/
def Normal.callBool {W : Type} (c : Collab W) (s : Normal W) (k : Call) : Bool × Normal W :=
  (c.reply k s.world, { s with world := c.exec k s.world })

/-- A getter read in the current world. -/
def Normal.get {W : Type} (c : Collab W) (s : Normal W) (q : Query) : Nat :=
  c.ask q s.world

/-- The conversion of a 32-bit pattern to `int32_t`. -/
def toInt32 (n : Nat) : Int :=
  if n % UINT32_MOD < ESCAPE_MARKER then (n % UINT32_MOD : Nat) else (n % UINT32_MOD : Nat) - (UINT32_MOD : Int)

/-- The conversion of an `int32_t` to the 32-bit pattern `uint32_t` holds. -/
def toUInt32 (i : Int) : Nat :=
  (i % (UINT32_MOD : Int)).toNat

/-- Runs `body` for `i = first, first + 1, ...`, `n` times: the loops
`for (uint32_t i = 0; i < count; ++i)`. -/
def forLoop {S : Type} (body : Nat → S → S) : Nat → Nat → S → S
  | 0, _, s => s
  | n + 1, i, s => forLoop body n (i + 1) (body i s)

/-! ## Member functions bound in the tables -/

section Members

variable {W : Type} (c : Collab W)

/-- The member `Normal::ClearScreen` (line 237). -/
def ClearScreen (s : Normal W) (_count : Nat) : Bool × Normal W :=
  s.callBool c .PlayerClearScreen

/-- The member `Normal::Pause` (line 242). -/
def Pause (s : Normal W) (_count : Nat) : Bool × Normal W :=
  s.callBool c .PlayerPause

/-- The member `Normal::Random` (line 247). -/
def Random (s : Normal W) (_count : Nat) : Bool × Normal W :=
  s.callBool c .PlayerToggleRandom

/-- The member `Normal::Stop` (line 252). -/
def Stop (s : Normal W) (_count : Nat) : Bool × Normal W :=
  s.callBool c .PlayerStop

/-- The member `Normal::Left` (line 258). -/
def Left (s : Normal W) (count : Nat) : Bool × Normal W :=
  (true, s.call c (.WindowLeft count))

/-- The member `Normal::Right` (line 264). -/
def Right (s : Normal W) (count : Nat) : Bool × Normal W :=
  (true, s.call c (.WindowRight count))

/-- The member `Normal::Confirm` (line 270). -/
def Confirm (s : Normal W) (_count : Nat) : Bool × Normal W :=
  (true, s.call c .WindowConfirm)

/-- The member `Normal::Expand` (line 288). -/
def Expand (s : Normal W) (_count : Nat) : Bool × Normal W :=
  (true, s.call c (.LibraryExpand (s.get c .CurrentLine)))

/-- The member `Normal::Collapse` (line 295). -/
def Collapse (s : Normal W) (_count : Nat) : Bool × Normal W :=
  (true, s.call c (.LibraryCollapse (s.get c .CurrentLine)))

/-- One iteration of the loop of `Normal::AddSong` (lines 310-317). -/
def AddSongBody (COLLECTION : SongCollection) (i : Nat) (s : Normal W) : Normal W :=
  if s.get c .GetActiveWindow = c.Library ∨ COLLECTION = .All then
    s.call c (.LibraryAddToPlaylist COLLECTION ((s.get c .CurrentLine + i) % UINT32_MOD))
  else if s.get c .GetActiveWindow = c.Browse then
    s.call c (.BrowseAddToPlaylist ((s.get c .CurrentLine + i) % UINT32_MOD))
  else s

/-- The member `Normal::AddSong<COLLECTION>` (line 306). -/
def AddSong (COLLECTION : SongCollection) (s : Normal W) (count : Nat) : Bool × Normal W :=
  let s := forLoop (AddSongBody c COLLECTION) count 0 s
  let s := if s.get c .GetActiveWindow ≠ c.Playlist then s.call c (.WindowScroll count) else s
  (true, s)

/-- One iteration of the loop of `Normal::DeleteSong` (lines 348-360). -/
def DeleteSongBody (currentLine : Nat) (i : Nat) (s : Normal W) : Normal W :=
  let index : Int := toInt32 currentLine
  let browse : Bool := decide (s.get c .GetActiveWindow = c.Browse)
  let index : Int :=
    if browse then c.index (s.get c (.BrowseGet ((toUInt32 index + i) % UINT32_MOD))) s.world
    else index
  let s := if browse then s.call c (.WindowScroll 1) else s
  if 0 ≤ index then
    (s.call c (.ClientDelete index.toNat)).call c (.PlaylistRemove index.toNat 1)
  else s

/-- The member `Normal::DeleteSong<COLLECTION>` (line 329). -/
def DeleteSong (COLLECTION : SongCollection) (s : Normal W) (count : Nat) : Bool × Normal W :=
  if s.get c .GetActiveWindow = c.Playlist ∨ s.get c .GetActiveWindow = c.Browse
      ∨ COLLECTION = .All then
    let currentLine := s.get c .CurrentLine
    let s := s.call c .PasteBufferClear
    let s :=
      match COLLECTION with
      | .Single => forLoop (DeleteSongBody c currentLine) count 0 s
      | .All => ((s.call c .PasteBufferClear).call c .ClientClear).call c .PlaylistClear
    let s := if s.get c .GetActiveWindow ≠ c.Browse then s.call c (.ScreenScrollToLine currentLine) else s
    (true, s)
  else (true, s)

/-- The inner loop of `Normal::PasteBuffer` (lines 386-392), from index `j`;
the result is the new value of `position` and the state. `j` is a
`uint32_t`, so the test `j < Size()` is made at most `2^32` times before `j`
would wrap: `bound` counts those tests down. -/
def PasteBufferInner : Nat → Nat → Nat → Normal W → Nat × Normal W
  | 0, _, position, s => (position, s)
  | bound + 1, j, position, s =>
    if j < s.get c .PasteBufferSize then
      let song := s.get c (.PasteBufferGet j)
      let line := (s.get c .CurrentLine + position) % UINT32_MOD
      let s := s.call c (.ClientAdd song line)
      let line := (s.get c .CurrentLine + position) % UINT32_MOD
      let s := s.call c (.PlaylistAdd (s.get c (.PasteBufferGet j)) line)
      PasteBufferInner bound (j + 1) ((position + 1) % UINT32_MOD) s
    else (position, s)

/-- The outer loop of `Normal::PasteBuffer` (line 384), `n` passes left. -/
def PasteBufferOuter : Nat → Nat → Normal W → Normal W
  | 0, _, s => s
  | n + 1, position, s =>
    let r := PasteBufferInner c UINT32_MOD 0 position s
    PasteBufferOuter n r.1 r.2

/-- The member `Normal::PasteBuffer` (line 380). -/
def PasteBuffer (s : Normal W) (count : Nat) : Bool × Normal W :=
  (true, PasteBufferOuter c count 0 s)

/-- The member `Normal::Select<POSITION>` (line 401). -/
def Select (POSITION : Position) (s : Normal W) (count : Nat) : Bool × Normal W :=
  (true, s.call c (.ScreenSelect POSITION count))

/-- The member `Normal::SearchResult<SKIP>` (line 410). -/
def SearchResult (SKIP : SearchSkip) (s : Normal W) (count : Nat) : Bool × Normal W :=
  s.callBool c (.SearchResult SKIP count)

/-- The member `Normal::SkipSong<SKIP>` (line 418). -/
def SkipSong (SKIP : PlayerSkip) (s : Normal W) (count : Nat) : Bool × Normal W :=
  s.callBool c (.PlayerSkipSong SKIP count)

/-- The member `Normal::SkipAlbum<SKIP>` (line 424). -/
def SkipAlbum (SKIP : PlayerSkip) (s : Normal W) (count : Nat) : Bool × Normal W :=
  s.callBool c (.PlayerSkipAlbum SKIP count)

/-- The member `Normal::SkipArtist<SKIP>` (line 430). -/
def SkipArtist (SKIP : PlayerSkip) (s : Normal W) (count : Nat) : Bool × Normal W :=
  s.callBool c (.PlayerSkipArtist SKIP count)

/-- The member `Normal::Scroll<SIZE, DIRECTION>` (line 438). -/
def Scroll (SIZE : Size) (DIRECTION : Direction) (s : Normal W) (count : Nat) :
    Bool × Normal W :=
  (true, s.call c (.ScreenScroll SIZE DIRECTION count))

/-- The member `Normal::ScrollTo<LOCATION>` (line 445). -/
def ScrollTo (LOCATION : Location) (s : Normal W) (_line : Nat) : Bool × Normal W :=
  (true, s.call c (.ScreenScrollTo LOCATION))

/-- The member `Normal::ScrollTo<SPECIFIC, ENDLOCATION>` (line 452). -/
def ScrollToSpecific (SPECIFIC ENDLOCATION : Location) (s : Normal W) (line : Nat) :
    Bool × Normal W :=
  if SPECIFIC = .Specific ∧ s.wasSpecificCount = false then
    (true, (ScrollTo c ENDLOCATION s line).2)
  else
    (true, s.call c (.ScreenScrollToSpecific SPECIFIC line))

/-- The member `Normal::AlignTo<LOCATION>` (line 469). -/
def AlignTo (LOCATION : Location) (s : Normal W) (line : Nat) : Bool × Normal W :=
  let line := if s.wasSpecificCount = false then 0 else line
  (true, s.call c (.ScreenAlignTo LOCATION line))

/-- The member `Normal::SetActiveWindow<SKIP, OFFSET>` (line 484). The
remainder `count % screen_.VisibleWindows()` is undefined in C++ when no
window is visible; here it is then `count`. -/
def SetActiveWindow (SKIP : ScreenSkip) (OFFSET : Nat) (s : Normal W) (count : Nat) :
    Bool × Normal W :=
  if SKIP = .Absolute then
    (true, s.call c (.ScreenSetActiveWindow OFFSET))
  else if SKIP = .Next ∧ s.wasSpecificCount = true then
    (true, s.call c (.ScreenSetActiveWindow ((count + UINT32_MOD - 1) % UINT32_MOD)))
  else if SKIP = .Previous ∧ s.wasSpecificCount = true then
    let count := count % s.get c .VisibleWindows
    (true, forLoop (fun _ t => Normal.call c t (.ScreenSkipActiveWindow SKIP)) count 0 s)
  else
    (true, s.call c (.ScreenSkipActiveWindow SKIP))

/-- The method `Normal::DisplayModeLine` (line 512). It reads the
collaborators, formats the status text and hands it to `window_->SetLine`;
the text itself is not modelled. -/
def DisplayModeLine (s : Normal W) : Normal W :=
  s.call c .ModeWindowSetLine

/-- The member `Normal::RepeatLastAction` (line 276). `handle` is the nested
call `Handle(lastAction_)`; its result is discarded. -/
def RepeatLastAction (handle : Normal W → Nat → Option (Bool × Normal W))
    (s : Normal W) (count : Nat) : Option (Bool × Normal W) :=
  let s := { s with actionCount := if s.actionCount > 0 then count else s.lastActionCount }
  if s.lastAction ≠ 0 then
    match handle s s.lastAction with
    | some r => some (true, r.2)
    | none => none
  else some (true, s)

/-- The call `(*this.*actionFunc)(count)` (line 206): the member function the
table entry points to, applied to the object and the count. -/
def invoke (handle : Normal W → Nat → Option (Bool × Normal W)) :
    Action → Normal W → Nat → Option (Bool × Normal W)
  | .RepeatLastAction, s, n => RepeatLastAction handle s n
  | .ClearScreen, s, n => some (ClearScreen c s n)
  | .Pause, s, n => some (Pause c s n)
  | .Random, s, n => some (Random c s n)
  | .Stop, s, n => some (Stop c s n)
  | .SkipSong k, s, n => some (SkipSong c k s n)
  | .SkipArtist k, s, n => some (SkipArtist c k s n)
  | .SkipAlbum k, s, n => some (SkipAlbum c k s n)
  | .Select p, s, n => some (Select c p s n)
  | .DeleteSong k, s, n => some (DeleteSong c k s n)
  | .AddSong k, s, n => some (AddSong c k s n)
  | .PasteBuffer, s, n => some (PasteBuffer c s n)
  | .Right, s, n => some (Right c s n)
  | .Left, s, n => some (Left c s n)
  | .Confirm, s, n => some (Confirm c s n)
  | .SearchResult k, s, n => some (SearchResult c k s n)
  | .Scroll z d, s, n => some (Scroll c z d s n)
  | .ScrollTo l, s, n => some (ScrollTo c l s n)
  | .ScrollToSpecific l e, s, n => some (ScrollToSpecific c l e s n)
  | .Expand, s, n => some (Expand c s n)
  | .Collapse, s, n => some (Collapse c s n)
  | .AlignTo l, s, n => some (AlignTo c l s n)
  | .SetActiveWindow k o, s, n => some (SetActiveWindow c k o s n)

/-- The test `(input & (1 << 31)) != 0` (line 173) on a 32-bit pattern. -/
def hasEscapeMarker (input : Nat) : Bool :=
  input / ESCAPE_MARKER % 2 = 1

/-- The key code after lines 173-177: `input & 0x7FFFFFFF` when the marker is
set, `input` itself otherwise. -/
def keyOf (input : Nat) : Nat :=
  if hasEscapeMarker input then input % ESCAPE_MARKER else input

/-- The table `action` points to after lines 173-177: `escapeTable_` when the
marker is set, the table it pointed to otherwise. -/
def tableFor (t : Table) (input : Nat) : Table :=
  if hasEscapeMarker input then .Escape else t

/-- The method `Normal::Handle` (line 167). The first argument bounds the
depth of nested `Handle` calls (`RepeatLastAction` calls `Handle` again);
`none` means the bound was reached before the call returned. -/
def Handle : Nat → Normal W → Nat → Option (Bool × Normal W)
  | 0, _, _ => none
  | depth + 1, s, input =>
    let s := { s with action := tableFor s.action input }
    let input := keyOf input
    if 48 ≤ input ∧ input ≤ 57 ∧ s.action ≠ .Escape then
      let newActionCount := (s.actionCount * 10 + (input - 48)) % UINT64_MOD
      if newActionCount ≤ UINT32_MAX then
        some (true, { s with actionCount := newActionCount })
      else some (true, s)
    else if input = ESCAPE_KEY then
      some (true, { s with action := .Default, actionCount := 0 })
    else
      match find s.action input with
      | some actionFunc =>
        let s := { s with wasSpecificCount := decide (s.actionCount ≠ 0) }
        let count := if s.actionCount > 0 then s.actionCount else 1
        let s :=
          if input ≠ 46 then
            { s with lastAction := input, lastActionCount := s.actionCount }
          else s
        let s := { s with trace := s.trace ++ [⟨actionFunc, count, s.wasSpecificCount⟩] }
        match invoke c (Handle depth) actionFunc s count with
        | some r =>
          let s := { r.2 with actionCount := 0 }
          let s := { s with action := .Default }
          let s := DisplayModeLine c s
          let s := s.call c .ScreenUpdate
          some (r.1, s)
        | none => none
      | none =>
        if input = 103 then some (true, { s with action := .Jump })
        else if input = 122 then some (true, { s with action := .Align })
        else some (true, { s with action := .Default })

end Members

/-! ## Driving the dispatcher -/

/-- The caller's loop: `Handle` on each key of a sequence in turn, every call
allowed `depth` levels of nesting. The results of the calls are dropped. -/
def HandleKeys {W : Type} (c : Collab W) (depth : Nat) : Normal W → List Nat → Option (Normal W)
  | s, [] => some s
  | s, k :: ks =>
    match Handle c depth s k with
    | some r => HandleKeys c depth r.2 ks
    | none => none

/-- The states the dispatcher can be in: the state the constructor leaves, and
every state a returning call of `Handle` leaves from one of them. -/
inductive Reachable {W : Type} (c : Collab W) : Normal W → Prop where
  | init (w : W) : Reachable c (Normal.init w)
  | step {s t : Normal W} {depth input : Nat} {r : Bool} :
      Reachable c s → Handle c depth s input = some (r, t) → Reachable c t

/-- The integer whose decimal digits are `ds`, most significant first. -/
def decimal (ds : List Nat) : Nat :=
  ds.foldl (fun n d => n * 10 + d) 0

/-- The count a run of digits leaves when every fold that would exceed
`UINT32_MAX` is discarded and the earlier value kept. -/
def foldCount (ds : List Nat) : Nat :=
  ds.foldl (fun n d => if n * 10 + d ≤ UINT32_MAX then n * 10 + d else n) 0

/-! ## A recording world -/

/-- A world that records the calls made, oldest first, and answers every
`bool`-returning call with `answer` and every getter with `0`. -/
def recorder (answer : Bool) : Collab (List Call) :=
  { exec := fun k w => w ++ [k]
    reply := fun _ _ => answer
    ask := fun _ _ => 0
    index := fun _ _ => 0
    Library := 2
    Browse := 3
    Playlist := 4 }

/-! ## Observing the collaborator calls -/

/-- The collaborators `c` with a log added to the world: every call made for
its effect is appended to the log, oldest first, and otherwise behaves as in
`c`; getters read the world of `c`. -/
def traced {W : Type} (c : Collab W) : Collab (W × List Call) :=
  { exec := fun k w => (c.exec k w.1, w.2 ++ [k])
    reply := fun k w => c.reply k w.1
    ask := fun q w => c.ask q w.1
    index := fun song w => c.index song w.1
    Library := c.Library
    Browse := c.Browse
    Playlist := c.Playlist }

/-- The calls of `m` consecutive inserts of a paste: insert number `j` puts
the clipboard entry `b (j mod k)` at the offset `(cur + j) mod 2^32`, first at
the daemon (`client_.Add`), then in the local playlist (`Playlist().Add`). The
calls are numbered `2j` and `2j + 1`. -/
def pasteLog (b : Nat → Nat) (k cur m : Nat) : List Call :=
  (List.range (2 * m)).map (fun i =>
    if i % 2 = 0 then Call.ClientAdd (b (i / 2 % k)) ((cur + i / 2) % UINT32_MOD)
    else Call.PlaylistAdd (b (i / 2 % k)) ((cur + i / 2) % UINT32_MOD))

/-- The getter answers of a playlist pane at rest: the playlist pane (value
4, as in `fixed`) is active with its cursor on line `line`, three panes are
visible, and the clipboard holds `clip`; an index past the end reads handle
0. -/
def paneAnswers (line : Nat) (clip : List Nat) : Query → Nat
  | .GetActiveWindow => 4
  | .CurrentLine => line
  | .VisibleWindows => 3
  | .PasteBufferSize => clip.length
  | .PasteBufferGet j => clip.getD j 0
  | .BrowseGet _ => 0

/-- Collaborators at rest: every getter reads its answer in `answers` whatever
was called before, every `bool`-returning call reports success, and a song is
at the index that is its handle. -/
def fixed (answers : Query → Nat) : Collab Unit :=
  { exec := fun _ w => w
    reply := fun _ _ => true
    ask := fun q _ => answers q
    index := fun song _ => (song : Int)
    Library := 2
    Browse := 3
    Playlist := 4 }

/-- Modelled from the spec: the state of the collaborators that the
song-collection actions read and change (sections 4.3 and 6): the active pane
and its cursor line, the number of visible panes, the local playlist model,
the clipboard (paste) buffer, the daemon-side playlist and the browse list.
Their code is outside `normal.cpp`. Songs are handles. -/
structure Session where
  activeWindow : Nat
  currentLine : Nat
  visibleWindows : Nat
  playlist : List Nat
  clipboard : List Nat
  daemon : List Nat
  browse : List Nat
  deriving DecidableEq, Repr

/-- Modelled from the spec: the effect of a collaborator call on a `Session`;
the bodies of `Playlist::Remove`, `Playlist::Add`, `Playlist::Clear`, the
paste buffer and `Mpc::Client` are outside `normal.cpp`. Removing `n` entries
at an index takes them out of the local playlist, a removal past the end
being a no-op, and puts them on the clipboard in removal order (delete
populates the clipboard, nothing else does); an insertion puts the entry at
the index, a no-op past the end; the daemon calls do the same to the
daemon-side playlist. Every other call leaves these lists, the active pane
and its cursor as they are (what the panes do with their cursor is not
modelled). -/
def Session.exec : Call → Session → Session
  | .PlaylistRemove i n, w =>
    { w with
      playlist := w.playlist.take i ++ w.playlist.drop (i + n)
      clipboard := w.clipboard ++ (w.playlist.drop i).take n }
  | .PlaylistClear, w => { w with playlist := [] }
  | .PlaylistAdd song position, w => { w with playlist := w.playlist.insertIdx position song }
  | .PasteBufferClear, w => { w with clipboard := [] }
  | .ClientDelete i, w => { w with daemon := w.daemon.take i ++ w.daemon.drop (i + 1) }
  | .ClientClear, w => { w with daemon := [] }
  | .ClientAdd song position, w => { w with daemon := w.daemon.insertIdx position song }
  | _, w => w

/-- Modelled from the spec: the getters of the collaborators on a `Session`
(section 6); a clipboard or browse index past the end reads handle 0. -/
def Session.ask : Query → Session → Nat
  | .GetActiveWindow, w => w.activeWindow
  | .CurrentLine, w => w.currentLine
  | .VisibleWindows, w => w.visibleWindows
  | .PasteBufferSize, w => w.clipboard.length
  | .PasteBufferGet j, w => w.clipboard.getD j 0
  | .BrowseGet i, w => w.browse.getD i 0

/-- Modelled from the spec: `Index(song) -> index-or-negative` of the playlist
model (section 6). -/
def Session.index (song : Nat) (w : Session) : Int :=
  if song ∈ w.playlist then (w.playlist.indexOf song : Int) else -1

/-- Modelled from the spec: the collaborators over a `Session`. The
`bool`-returning calls report success; the values chosen for the enumerators
`Library`, `Browse` and `Playlist` are distinct and otherwise arbitrary. -/
def session : Collab Session :=
  { exec := Session.exec
    reply := fun _ _ => true
    ask := Session.ask
    index := Session.index
    Library := 2
    Browse := 3
    Playlist := 4 }

/-! ## The key tables -/

/-- A successful lookup returns an entry of the list. -/
theorem lookup_mem {k : Nat} {a : Action} :
    ∀ {l : List (Nat × Action)}, l.lookup k = some a → (k, a) ∈ l := by
  intro l
  induction l with
  | nil => intro h; simp [List.lookup] at h
  | cons p l ih =>
    intro h
    obtain ⟨k0, a0⟩ := p
    by_cases hk : k = k0
    · subst hk
      simp [List.lookup] at h
      simp [h]
    · have hne : (k == k0) = false := by simpa using hk
      simp [List.lookup, hne] at h
      exact List.mem_cons_of_mem _ (ih h)

set_option maxRecDepth 100000 in
/-- What the constructor binds: no table binds the cancel key or a code with
the marker bit, only `escapeTable_` binds digits, and `RepeatLastAction` is
bound once, to `'.'` in `actionTable_`. -/
theorem table_entries (t : Table) :
    ∀ p ∈ tableOf t, p.1 ≠ 27 ∧ p.1 < 2147483648
      ∧ (t ≠ .Escape → ¬ (48 ≤ p.1 ∧ p.1 ≤ 57))
      ∧ (p.2 = .RepeatLastAction → t = .Default ∧ p.1 = 46) := by
  cases t <;> decide

/-- The facts of `table_entries` for a key that `find` resolves. -/
theorem find_some {t : Table} {k : Nat} {a : Action} (h : find t k = some a) :
    k ≠ 27 ∧ k < 2147483648 ∧ (t ≠ .Escape → ¬ (48 ≤ k ∧ k ≤ 57))
      ∧ (a = .RepeatLastAction → t = .Default ∧ k = 46) :=
  table_entries t (k, a) (lookup_mem h)

/-! ## Members other than `RepeatLastAction` touch only the world -/

section Frame

variable {W : Type} (c : Collab W)

/-- A loop whose body changes only the world changes only the world. -/
theorem forLoop_world (body : Nat → Normal W → Normal W)
    (hbody : ∀ i s, ∃ w, body i s = { s with world := w }) :
    ∀ n i s, ∃ w, forLoop body n i s = { s with world := w } := by
  intro n
  induction n with
  | zero => intro i s; exact ⟨s.world, rfl⟩
  | succ n ih =>
    intro i s
    obtain ⟨w1, h1⟩ := hbody i s
    obtain ⟨w2, h2⟩ := ih (i + 1) (body i s)
    refine ⟨w2, ?_⟩
    rw [forLoop, h2, h1]

/-- The loop body of `AddSong` changes only the world. -/
theorem AddSongBody_world (k : SongCollection) (i : Nat) (s : Normal W) :
    ∃ w, AddSongBody c k i s = { s with world := w } := by
  unfold AddSongBody
  split
  · exact ⟨_, rfl⟩
  · split
    · exact ⟨_, rfl⟩
    · exact ⟨s.world, rfl⟩

/-- The loop body of `DeleteSong` changes only the world. -/
theorem DeleteSongBody_world (line : Nat) (i : Nat) (s : Normal W) :
    ∃ w, DeleteSongBody c line i s = { s with world := w } := by
  unfold DeleteSongBody
  by_cases hb : s.get c .GetActiveWindow = c.Browse <;>
    simp only [hb, decide_True, decide_False, if_true, if_false, Bool.false_eq_true] <;>
    split <;> exact ⟨_, rfl⟩

/-- The inner loop of `PasteBuffer` changes only the world. -/
theorem PasteBufferInner_world :
    ∀ (bound j position : Nat) (s : Normal W),
      ∃ w, (PasteBufferInner c bound j position s).2 = { s with world := w } := by
  intro bound
  induction bound with
  | zero => intro j position s; exact ⟨s.world, rfl⟩
  | succ bound ih =>
    intro j position s
    unfold PasteBufferInner
    split
    · obtain ⟨w, hw⟩ := ih (j + 1) ((position + 1) % UINT32_MOD)
        ((s.call c (.ClientAdd (s.get c (.PasteBufferGet j))
            ((s.get c .CurrentLine + position) % UINT32_MOD))).call c
          (.PlaylistAdd ((s.call c (.ClientAdd (s.get c (.PasteBufferGet j))
            ((s.get c .CurrentLine + position) % UINT32_MOD))).get c (.PasteBufferGet j))
            (((s.call c (.ClientAdd (s.get c (.PasteBufferGet j))
            ((s.get c .CurrentLine + position) % UINT32_MOD))).get c .CurrentLine + position)
              % UINT32_MOD)))
      exact ⟨w, hw⟩
    · exact ⟨s.world, rfl⟩

/-- The outer loop of `PasteBuffer` changes only the world. -/
theorem PasteBufferOuter_world :
    ∀ (n position : Nat) (s : Normal W),
      ∃ w, PasteBufferOuter c n position s = { s with world := w } := by
  intro n
  induction n with
  | zero => intro position s; exact ⟨s.world, rfl⟩
  | succ n ih =>
    intro position s
    obtain ⟨w1, h1⟩ := PasteBufferInner_world c UINT32_MOD 0 position s
    obtain ⟨w2, h2⟩ := ih (PasteBufferInner c UINT32_MOD 0 position s).1
      (PasteBufferInner c UINT32_MOD 0 position s).2
    refine ⟨w2, ?_⟩
    rw [PasteBufferOuter, h2, h1]

/-- The member `DeleteSong` returns `true` and changes only the world. -/
theorem DeleteSong_world (k : SongCollection) (s : Normal W) (n : Nat) :
    ∃ w, DeleteSong c k s n = (true, { s with world := w }) := by
  have tail : ∀ (line : Nat) (t : Normal W), (∃ w, t = { s with world := w }) →
      ∃ w, (if t.get c .GetActiveWindow ≠ c.Browse then t.call c (.ScreenScrollToLine line)
        else t) = { s with world := w } := by
    rintro line t ⟨w, rfl⟩
    split <;> exact ⟨_, rfl⟩
  cases k with
  | Single =>
    unfold DeleteSong
    split
    · obtain ⟨w, hw⟩ := tail (s.get c .CurrentLine) _
        (forLoop_world (DeleteSongBody c (s.get c .CurrentLine))
          (DeleteSongBody_world c (s.get c .CurrentLine)) n 0 (s.call c .PasteBufferClear))
      exact ⟨w, congrArg (Prod.mk true) hw⟩
    · exact ⟨s.world, rfl⟩
  | All =>
    unfold DeleteSong
    split
    · obtain ⟨w, hw⟩ := tail (s.get c .CurrentLine)
        ((((s.call c .PasteBufferClear).call c .PasteBufferClear).call c
          .ClientClear).call c .PlaylistClear) ⟨_, rfl⟩
      exact ⟨w, congrArg (Prod.mk true) hw⟩
    · exact ⟨s.world, rfl⟩

/-- The member `AddSong` returns `true` and changes only the world. -/
theorem AddSong_world (k : SongCollection) (s : Normal W) (n : Nat) :
    ∃ w, AddSong c k s n = (true, { s with world := w }) := by
  have tail : ∀ (t : Normal W), (∃ w, t = { s with world := w }) →
      ∃ w, (if t.get c .GetActiveWindow ≠ c.Playlist then t.call c (.WindowScroll n)
        else t) = { s with world := w } := by
    rintro t ⟨w, rfl⟩
    split <;> exact ⟨_, rfl⟩
  obtain ⟨w, hw⟩ := tail _ (forLoop_world (AddSongBody c k) (AddSongBody_world c k) n 0 s)
  exact ⟨w, congrArg (Prod.mk true) hw⟩

/-- The member `SetActiveWindow` returns `true` and changes only the world. -/
theorem SetActiveWindow_world (k : ScreenSkip) (o : Nat) (s : Normal W) (n : Nat) :
    ∃ w, SetActiveWindow c k o s n = (true, { s with world := w }) := by
  unfold SetActiveWindow
  split
  · exact ⟨_, rfl⟩
  · split
    · exact ⟨_, rfl⟩
    · split
      · obtain ⟨w, hw⟩ := forLoop_world
          (fun _ t => Normal.call c t (.ScreenSkipActiveWindow k)) (fun _ t => ⟨_, rfl⟩)
          (n % s.get c .VisibleWindows) 0 s
        exact ⟨w, congrArg (Prod.mk true) hw⟩
      · exact ⟨_, rfl⟩

/-- The member `ScrollTo<SPECIFIC, ENDLOCATION>` returns `true` and changes
only the world. -/
theorem ScrollToSpecific_world (l e : Location) (s : Normal W) (n : Nat) :
    ∃ w, ScrollToSpecific c l e s n = (true, { s with world := w }) := by
  unfold ScrollToSpecific
  split <;> exact ⟨_, rfl⟩

/-- Every member function other than `RepeatLastAction` returns, does not
call `Handle`, and leaves every field of the dispatcher as it was: only the
world changes. -/
theorem invoke_world (a : Action) (ha : a ≠ .RepeatLastAction) (s : Normal W) (n : Nat) :
    ∃ r w, ∀ h, invoke c h a s n = some (r, { s with world := w }) := by
  cases a with
  | RepeatLastAction => exact absurd rfl ha
  | ClearScreen => exact ⟨_, _, fun _ => rfl⟩
  | Pause => exact ⟨_, _, fun _ => rfl⟩
  | Random => exact ⟨_, _, fun _ => rfl⟩
  | Stop => exact ⟨_, _, fun _ => rfl⟩
  | SkipSong k => exact ⟨_, _, fun _ => rfl⟩
  | SkipArtist k => exact ⟨_, _, fun _ => rfl⟩
  | SkipAlbum k => exact ⟨_, _, fun _ => rfl⟩
  | Select p => exact ⟨_, _, fun _ => rfl⟩
  | DeleteSong k =>
    obtain ⟨w, hw⟩ := DeleteSong_world c k s n
    exact ⟨true, w, fun _ => congrArg some hw⟩
  | AddSong k =>
    obtain ⟨w, hw⟩ := AddSong_world c k s n
    exact ⟨true, w, fun _ => congrArg some hw⟩
  | PasteBuffer =>
    obtain ⟨w, hw⟩ := PasteBufferOuter_world c n 0 s
    exact ⟨true, w, fun _ => congrArg (fun t => some (true, t)) hw⟩
  | Right => exact ⟨_, _, fun _ => rfl⟩
  | Left => exact ⟨_, _, fun _ => rfl⟩
  | Confirm => exact ⟨_, _, fun _ => rfl⟩
  | SearchResult k => exact ⟨_, _, fun _ => rfl⟩
  | Scroll z d => exact ⟨_, _, fun _ => rfl⟩
  | ScrollTo l => exact ⟨_, _, fun _ => rfl⟩
  | ScrollToSpecific l e =>
    obtain ⟨w, hw⟩ := ScrollToSpecific_world c l e s n
    exact ⟨true, w, fun _ => congrArg some hw⟩
  | Expand => exact ⟨_, _, fun _ => rfl⟩
  | Collapse => exact ⟨_, _, fun _ => rfl⟩
  | AlignTo l => exact ⟨_, _, fun _ => rfl⟩
  | SetActiveWindow k o =>
    obtain ⟨w, hw⟩ := SetActiveWindow_world c k o s n
    exact ⟨true, w, fun _ => congrArg some hw⟩

end Frame

/-! ## The branches of `Handle` -/

section Branches

variable {W : Type} (c : Collab W)

/-- A key code below `2^31` carries no marker. -/
theorem hasEscapeMarker_of_lt {k : Nat} (h : k < 2147483648) : hasEscapeMarker k = false := by
  simp [hasEscapeMarker, ESCAPE_MARKER, Nat.div_eq_of_lt h]

/-- The key code after marker handling is below `2^31` for a 32-bit pattern. -/
theorem keyOf_of_lt {k : Nat} (h : k < 2147483648) : keyOf k = k := by
  simp [keyOf, hasEscapeMarker_of_lt h]

/-- An unmarked key leaves the active table as it is. -/
theorem tableFor_of_lt (t : Table) {k : Nat} (h : k < 2147483648) : tableFor t k = t := by
  simp [tableFor, hasEscapeMarker_of_lt h]

/-- A marked key selects `escapeTable_`. -/
theorem tableFor_marked (t : Table) {k : Nat} (h : hasEscapeMarker k = true) :
    tableFor t k = .Escape := by
  simp [tableFor, h]

/-- The digit branch of `Handle` (lines 179-187). -/
theorem Handle_digit (depth : Nat) (s : Normal W) (input : Nat)
    (hd : 48 ≤ keyOf input ∧ keyOf input ≤ 57 ∧ tableFor s.action input ≠ .Escape) :
    Handle c (depth + 1) s input =
      some (true,
        if (s.actionCount * 10 + (keyOf input - 48)) % UINT64_MOD ≤ UINT32_MAX then
          { s with action := tableFor s.action input,
                   actionCount := (s.actionCount * 10 + (keyOf input - 48)) % UINT64_MOD }
        else { s with action := tableFor s.action input }) := by
  simp only [Handle, hd, ne_eq, not_false_eq_true, and_self, if_true]
  split <;> rfl

/-- The cancel branch of `Handle` (lines 188-192). -/
theorem Handle_cancel (depth : Nat) (s : Normal W) (input : Nat) (hk : keyOf input = 27) :
    Handle c (depth + 1) s input = some (true, { s with action := .Default, actionCount := 0 }) := by
  simp [Handle, hk, ESCAPE_KEY]

/-- The dispatch branch of `Handle` (lines 193-214): the state in which the
bound member function is called, and what `Handle` does with its result. -/
theorem Handle_bound (depth : Nat) (s : Normal W) (input : Nat) (a : Action)
    (hfind : find (tableFor s.action input) (keyOf input) = some a) :
    Handle c (depth + 1) s input =
      match invoke c (Handle c depth) a
          { s with
            action := tableFor s.action input
            wasSpecificCount := decide (s.actionCount ≠ 0)
            lastAction := if keyOf input ≠ 46 then keyOf input else s.lastAction
            lastActionCount := if keyOf input ≠ 46 then s.actionCount else s.lastActionCount
            trace := s.trace ++ [⟨a, if s.actionCount > 0 then s.actionCount else 1,
              decide (s.actionCount ≠ 0)⟩] }
          (if s.actionCount > 0 then s.actionCount else 1) with
      | some r =>
        some (r.1, { r.2 with
          actionCount := 0
          action := .Default
          world := c.exec .ScreenUpdate (c.exec .ModeWindowSetLine r.2.world) })
      | none => none := by
  obtain ⟨h27, -, hdig, -⟩ := find_some hfind
  have hd : ¬ (48 ≤ keyOf input ∧ keyOf input ≤ 57 ∧ tableFor s.action input ≠ .Escape) :=
    fun h => hdig h.2.2 ⟨h.1, h.2.1⟩
  by_cases h46 : keyOf input = 46
  · simp only [Handle, hd, if_false, ESCAPE_KEY, h27, hfind]
    simp only [h46, ne_eq, not_true_eq_false, if_false, DisplayModeLine, Normal.call]
  · simp only [Handle, hd, if_false, ESCAPE_KEY, h27, hfind]
    simp only [h46, ne_eq, not_false_eq_true, if_true, DisplayModeLine, Normal.call]

/-- The last three branches of `Handle` (lines 215-226), for a key the active
table does not bind. -/
theorem Handle_unbound (depth : Nat) (s : Normal W) (input : Nat)
    (hd : ¬ (48 ≤ keyOf input ∧ keyOf input ≤ 57 ∧ tableFor s.action input ≠ .Escape))
    (h27 : keyOf input ≠ 27) (hfind : find (tableFor s.action input) (keyOf input) = none) :
    Handle c (depth + 1) s input =
      some (true,
        { s with
          action := if keyOf input = 103 then .Jump
                    else if keyOf input = 122 then .Align else .Default }) := by
  simp only [Handle, hd, if_false, ESCAPE_KEY, h27, hfind]
  split
  · rfl
  · split <;> rfl

/-- The dispatch branch for a member function other than `RepeatLastAction`:
the member runs once, on the state lines 195-203 prepare, and changes only
the world; `Handle` then resets the count and the table and repaints. -/
theorem Handle_member (depth : Nat) (s : Normal W) (input : Nat) (a : Action)
    (hfind : find (tableFor s.action input) (keyOf input) = some a)
    (ha : a ≠ .RepeatLastAction) :
    ∃ r w,
      (∀ h, invoke c h a
          { s with
            action := tableFor s.action input
            wasSpecificCount := decide (s.actionCount ≠ 0)
            lastAction := if keyOf input ≠ 46 then keyOf input else s.lastAction
            lastActionCount := if keyOf input ≠ 46 then s.actionCount else s.lastActionCount
            trace := s.trace ++ [⟨a, if s.actionCount > 0 then s.actionCount else 1,
              decide (s.actionCount ≠ 0)⟩] }
          (if s.actionCount > 0 then s.actionCount else 1) =
        some (r,
          { s with
            action := tableFor s.action input
            wasSpecificCount := decide (s.actionCount ≠ 0)
            lastAction := if keyOf input ≠ 46 then keyOf input else s.lastAction
            lastActionCount := if keyOf input ≠ 46 then s.actionCount else s.lastActionCount
            trace := s.trace ++ [⟨a, if s.actionCount > 0 then s.actionCount else 1,
              decide (s.actionCount ≠ 0)⟩]
            world := w }))
      ∧ Handle c (depth + 1) s input =
        some (r,
          { s with
            actionCount := 0
            action := .Default
            wasSpecificCount := decide (s.actionCount ≠ 0)
            lastAction := if keyOf input ≠ 46 then keyOf input else s.lastAction
            lastActionCount := if keyOf input ≠ 46 then s.actionCount else s.lastActionCount
            trace := s.trace ++ [⟨a, if s.actionCount > 0 then s.actionCount else 1,
              decide (s.actionCount ≠ 0)⟩]
            world := c.exec .ScreenUpdate (c.exec .ModeWindowSetLine w) }) := by
  obtain ⟨r, w, hw⟩ := invoke_world c a ha
    { s with
      action := tableFor s.action input
      wasSpecificCount := decide (s.actionCount ≠ 0)
      lastAction := if keyOf input ≠ 46 then keyOf input else s.lastAction
      lastActionCount := if keyOf input ≠ 46 then s.actionCount else s.lastActionCount
      trace := s.trace ++ [⟨a, if s.actionCount > 0 then s.actionCount else 1,
        decide (s.actionCount ≠ 0)⟩] }
    (if s.actionCount > 0 then s.actionCount else 1)
  refine ⟨r, w, hw, ?_⟩
  rw [Handle_bound c depth s input a hfind, hw]

/-- A key that does not reach `RepeatLastAction` makes `Handle` return
without a nested call. -/
theorem Handle_returns_of_not_repeat (depth : Nat) (s : Normal W) (input : Nat)
    (h : find (tableFor s.action input) (keyOf input) ≠ some .RepeatLastAction) :
    ∃ r t, Handle c (depth + 1) s input = some (r, t) := by
  by_cases hd : 48 ≤ keyOf input ∧ keyOf input ≤ 57 ∧ tableFor s.action input ≠ .Escape
  · exact ⟨_, _, Handle_digit c depth s input hd⟩
  · by_cases h27 : keyOf input = 27
    · exact ⟨_, _, Handle_cancel c depth s input h27⟩
    · cases hfind : find (tableFor s.action input) (keyOf input) with
      | none => exact ⟨_, _, Handle_unbound c depth s input hd h27 hfind⟩
      | some a =>
        have ha : a ≠ .RepeatLastAction := fun e => h (by rw [hfind, e])
        obtain ⟨r, w, -, hH⟩ := Handle_member c depth s input a hfind ha
        exact ⟨_, _, hH⟩

/-- The key `'.'` itself is the only remembered key whose re-dispatch from
`actionTable_` reaches `RepeatLastAction` again. -/
theorem find_repeat_iff (k : Nat) :
    find (tableFor .Default k) (keyOf k) = some .RepeatLastAction ↔ k = 46 := by
  constructor
  · intro h
    obtain ⟨-, -, -, hrep⟩ := find_some h
    obtain ⟨ht, hk⟩ := hrep rfl
    by_cases hm : hasEscapeMarker k = true
    · rw [tableFor_marked _ hm] at ht
      exact absurd ht (by decide)
    · simpa [keyOf, hm] using hk
  · rintro rfl
    decide

/-- The dispatch branch for `RepeatLastAction` (lines 276-286 inside lines
193-214): the pending count is replaced, the remembered key is re-dispatched
from `actionTable_`, and the outer `Handle` resets and repaints. -/
theorem Handle_repeat (depth : Nat) (s : Normal W) (input : Nat)
    (hfind : find (tableFor s.action input) (keyOf input) = some .RepeatLastAction) :
    Handle c (depth + 1) s input =
      if s.lastAction ≠ 0 then
        match Handle c depth
            { s with
              action := .Default
              wasSpecificCount := decide (s.actionCount ≠ 0)
              actionCount := if s.actionCount > 0 then s.actionCount else s.lastActionCount
              trace := s.trace ++ [⟨.RepeatLastAction,
                if s.actionCount > 0 then s.actionCount else 1, decide (s.actionCount ≠ 0)⟩] }
            s.lastAction with
        | some r =>
          some (true, { r.2 with
            actionCount := 0
            action := .Default
            world := c.exec .ScreenUpdate (c.exec .ModeWindowSetLine r.2.world) })
        | none => none
      else
        some (true,
          { s with
            action := .Default
            wasSpecificCount := decide (s.actionCount ≠ 0)
            actionCount := 0
            trace := s.trace ++ [⟨.RepeatLastAction,
              if s.actionCount > 0 then s.actionCount else 1, decide (s.actionCount ≠ 0)⟩]
            world := c.exec .ScreenUpdate (c.exec .ModeWindowSetLine s.world) }) := by
  obtain ⟨-, -, -, hrep⟩ := find_some hfind
  obtain ⟨ht, hk⟩ := hrep rfl
  rw [Handle_bound c depth s input _ hfind]
  simp only [invoke, RepeatLastAction, ht, hk, ne_eq, not_true_eq_false, if_false]
  by_cases h0 : s.lastAction = 0
  · simp only [h0, not_true_eq_false, if_false]
  · simp only [h0, not_false_eq_true, if_true]
    by_cases hc : s.actionCount > 0
    · simp only [hc, if_true]
      cases Handle c depth _ s.lastAction <;> rfl
    · simp only [hc, if_false]
      cases Handle c depth _ s.lastAction <;> rfl

/-- A call of `Handle` returns, with at most one nested call, unless the
remembered key is `'.'`. -/
theorem Handle_returns (depth : Nat) (s : Normal W) (input : Nat) (h : s.lastAction ≠ 46) :
    ∃ r t, Handle c (depth + 2) s input = some (r, t) := by
  by_cases hrep : find (tableFor s.action input) (keyOf input) = some .RepeatLastAction
  · rw [Handle_repeat c (depth + 1) s input hrep]
    by_cases h0 : s.lastAction = 0
    · simp only [h0, ne_eq, not_true_eq_false, if_false]
      exact ⟨_, _, rfl⟩
    · simp only [ne_eq, h0, not_false_eq_true, if_true]
      obtain ⟨r, t, hH⟩ := Handle_returns_of_not_repeat c depth
        { s with
          action := .Default
          wasSpecificCount := decide (s.actionCount ≠ 0)
          actionCount := if s.actionCount > 0 then s.actionCount else s.lastActionCount
          trace := s.trace ++ [⟨.RepeatLastAction,
            if s.actionCount > 0 then s.actionCount else 1, decide (s.actionCount ≠ 0)⟩] }
        s.lastAction (fun e => h ((find_repeat_iff s.lastAction).1 e))
      rw [hH]
      exact ⟨_, _, rfl⟩
  · exact Handle_returns_of_not_repeat c (depth + 1) s input hrep

/-- The digit branch for an unmarked digit key and a count that fits 32 bits:
the 64-bit fold does not wrap. -/
theorem Handle_digit_unmarked (depth : Nat) (s : Normal W) (key : Nat)
    (hcount : s.actionCount ≤ UINT32_MAX) (hkey : 48 ≤ key ∧ key ≤ 57)
    (htable : s.action ≠ .Escape) :
    Handle c (depth + 1) s key =
      some (true,
        { s with
          actionCount := if s.actionCount * 10 + (key - 48) ≤ UINT32_MAX
                         then s.actionCount * 10 + (key - 48) else s.actionCount }) := by
  have hlt : key < 2147483648 := by omega
  have hk : keyOf key = key := keyOf_of_lt hlt
  have ht : tableFor s.action key = s.action := tableFor_of_lt s.action hlt
  have hmod : (s.actionCount * 10 + (key - 48)) % UINT64_MOD
      = s.actionCount * 10 + (key - 48) := by
    apply Nat.mod_eq_of_lt
    simp only [UINT32_MAX, UINT64_MOD] at *
    omega
  rw [Handle_digit c depth s key (by rw [hk, ht]; exact ⟨hkey.1, hkey.2, htable⟩), hk, ht, hmod]
  split <;> rfl


/-- The count handed to a member function is `max(actionCount_, 1)`. -/
theorem count_eq_max (n : Nat) : (if n > 0 then n else 1) = max n 1 := by
  split <;> omega

/-- A run of unmarked digit keys only folds the pending count. -/
theorem HandleKeys_digits (depth : Nat) :
    ∀ (ds : List Nat) (s : Normal W), s.actionCount ≤ UINT32_MAX → s.action ≠ .Escape →
      (∀ d ∈ ds, d ≤ 9) →
      HandleKeys c (depth + 1) s (ds.map (fun d => 48 + d)) =
        some { s with
          actionCount := ds.foldl
            (fun n d => if n * 10 + d ≤ UINT32_MAX then n * 10 + d else n) s.actionCount } := by
  intro ds
  induction ds with
  | nil => intro s _ _ _; rfl
  | cons d ds ih =>
    intro s hcount htable hds
    have hd : d ≤ 9 := hds d (List.mem_cons_self _ _)
    have hstep := Handle_digit_unmarked c depth s (48 + d) hcount ⟨by omega, by omega⟩ htable
    have hsub : 48 + d - 48 = d := by omega
    rw [hsub] at hstep
    simp only [List.map_cons, HandleKeys, hstep, List.foldl_cons]
    have hnext : (if s.actionCount * 10 + d ≤ UINT32_MAX then s.actionCount * 10 + d
        else s.actionCount) ≤ UINT32_MAX := by
      split <;> assumption
    exact ih _ hnext htable (fun e he => hds e (List.mem_cons_of_mem _ he))

/-- Discarding overflowing folds keeps the count within 32 bits. -/
theorem foldl_discard_le :
    ∀ (ds : List Nat) (n : Nat), n ≤ UINT32_MAX →
      ds.foldl (fun n d => if n * 10 + d ≤ UINT32_MAX then n * 10 + d else n) n ≤ UINT32_MAX := by
  intro ds
  induction ds with
  | nil => intro n h; exact h
  | cons d ds ih =>
    intro n h
    rw [List.foldl_cons]
    apply ih
    split <;> assumption

/-- The decimal value of a digit run never falls below its start. -/
theorem le_foldl_decimal :
    ∀ (ds : List Nat) (n : Nat), n ≤ ds.foldl (fun n d => n * 10 + d) n := by
  intro ds
  induction ds with
  | nil => intro n; exact Nat.le_refl n
  | cons d ds ih =>
    intro n
    rw [List.foldl_cons]
    exact Nat.le_trans (by omega) (ih (n * 10 + d))

/-- While the decimal value fits 32 bits no fold is discarded. -/
theorem foldl_discard_eq :
    ∀ (ds : List Nat) (n : Nat), ds.foldl (fun n d => n * 10 + d) n ≤ UINT32_MAX →
      ds.foldl (fun n d => if n * 10 + d ≤ UINT32_MAX then n * 10 + d else n) n
        = ds.foldl (fun n d => n * 10 + d) n := by
  intro ds
  induction ds with
  | nil => intro n _; rfl
  | cons d ds ih =>
    intro n h
    rw [List.foldl_cons] at h
    have hfit : n * 10 + d ≤ UINT32_MAX := Nat.le_trans (le_foldl_decimal ds _) h
    rw [List.foldl_cons, List.foldl_cons, if_pos hfit]
    exact ih _ h

/-- With `'.'` remembered, `Handle` of `'.'` in `actionTable_` never returns:
every nesting depth is exhausted. -/
theorem Handle_repeat_diverges :
    ∀ (depth : Nat) (s : Normal W), s.action = .Default → s.lastAction = 46 →
      Handle c depth s 46 = none := by
  intro depth
  induction depth with
  | zero => intro s _ _; rfl
  | succ d ih =>
    intro s ht hl
    have hrep : find (tableFor s.action 46) (keyOf 46) = some .RepeatLastAction := by
      rw [ht]; decide
    have hnest := ih
      { s with
        action := .Default
        wasSpecificCount := decide (s.actionCount ≠ 0)
        actionCount := if s.actionCount > 0 then s.actionCount else s.lastActionCount
        trace := s.trace ++ [⟨.RepeatLastAction,
          if s.actionCount > 0 then s.actionCount else 1, decide (s.actionCount ≠ 0)⟩] }
      rfl hl
    rw [← hl] at hnest
    rw [Handle_repeat c d s 46 hrep, if_pos (by rw [hl]; decide), hnest]

/-- What a call of `Handle` on an unmarked key other than `'.'` does to
`LastAction`: a bound key replaces it by the key and the pending count, any
other key leaves it. -/
theorem Handle_unmarked_last (depth : Nat) (s : Normal W) (k : Nat) (r : Bool) (t : Normal W)
    (hk : k < 2147483648) (h46 : k ≠ 46) (h : Handle c depth s k = some (r, t)) :
    ((find s.action k).isSome = true → t.lastAction = k ∧ t.lastActionCount = s.actionCount)
      ∧ (find s.action k = none →
          t.lastAction = s.lastAction ∧ t.lastActionCount = s.lastActionCount) := by
  have hkey : keyOf k = k := keyOf_of_lt hk
  have htab : tableFor s.action k = s.action := tableFor_of_lt s.action hk
  cases depth with
  | zero => exact absurd h (by simp [Handle])
  | succ d =>
    cases hfind : find s.action k with
    | some a =>
      have hfind2 : find (tableFor s.action k) (keyOf k) = some a := by rw [hkey, htab, hfind]
      have ha : a ≠ .RepeatLastAction := fun e => h46 (hkey ▸ ((find_some hfind2).2.2.2 e).2)
      obtain ⟨r2, w, -, hH⟩ := Handle_member c d s k a hfind2 ha
      rw [hH] at h
      simp only [Option.some.injEq, Prod.mk.injEq] at h
      obtain ⟨-, rfl⟩ := h
      refine ⟨fun _ => ?_, fun e => absurd e (by simp)⟩
      simp only [hkey, ne_eq, h46, not_false_eq_true, if_true, and_self]
    | none =>
      refine ⟨fun e => absurd e (by simp), fun _ => ?_⟩
      by_cases hd : 48 ≤ keyOf k ∧ keyOf k ≤ 57 ∧ tableFor s.action k ≠ .Escape
      · rw [Handle_digit c d s k hd] at h
        simp only [Option.some.injEq, Prod.mk.injEq] at h
        obtain ⟨-, rfl⟩ := h
        split <;> exact ⟨rfl, rfl⟩
      · by_cases h27 : keyOf k = 27
        · rw [Handle_cancel c d s k h27] at h
          simp only [Option.some.injEq, Prod.mk.injEq] at h
          obtain ⟨-, rfl⟩ := h
          exact ⟨rfl, rfl⟩
        · rw [Handle_unbound c d s k hd h27 (by rw [hkey, htab, hfind])] at h
          simp only [Option.some.injEq, Prod.mk.injEq] at h
          obtain ⟨-, rfl⟩ := h
          exact ⟨rfl, rfl⟩

/-- The key `'.'` in `actionTable_` when the remembered key is bound there to a
member other than `RepeatLastAction`: that member runs once, in the nested
call, with the count `n` that `RepeatLastAction` chose. -/
theorem Handle_repeat_member (depth : Nat) (s : Normal W) (a : Action) (n : Nat)
    (htable : s.action = .Default) (hfind : find .Default s.lastAction = some a)
    (h46 : s.lastAction ≠ 46)
    (hn : n = if s.actionCount > 0 then s.actionCount else s.lastActionCount) :
    ∃ r w,
      (∀ h, invoke c h a
          { s with
            actionCount := n
            wasSpecificCount := decide (n ≠ 0)
            lastActionCount := n
            trace := s.trace ++ [⟨.RepeatLastAction, max s.actionCount 1,
              decide (s.actionCount ≠ 0)⟩, ⟨a, max n 1, decide (n ≠ 0)⟩] }
          (max n 1) =
        some (r,
          { s with
            actionCount := n
            wasSpecificCount := decide (n ≠ 0)
            lastActionCount := n
            trace := s.trace ++ [⟨.RepeatLastAction, max s.actionCount 1,
              decide (s.actionCount ≠ 0)⟩, ⟨a, max n 1, decide (n ≠ 0)⟩]
            world := w }))
      ∧ Handle c (depth + 2) s 46 =
        some (true,
          { s with
            actionCount := 0
            wasSpecificCount := decide (n ≠ 0)
            lastActionCount := n
            trace := s.trace ++ [⟨.RepeatLastAction, max s.actionCount 1,
              decide (s.actionCount ≠ 0)⟩, ⟨a, max n 1, decide (n ≠ 0)⟩]
            world := c.exec .ScreenUpdate (c.exec .ModeWindowSetLine
              (c.exec .ScreenUpdate (c.exec .ModeWindowSetLine w))) }) := by
  obtain ⟨k0, k, m, b, tb, w0, tr⟩ := s
  simp only at htable hfind h46 hn
  subst htable
  have hk : k < 2147483648 := (find_some hfind).2.1
  have hkey : keyOf k = k := keyOf_of_lt hk
  have htab : tableFor .Default k = .Default := tableFor_of_lt _ hk
  have hk0 : k ≠ 0 := by
    rintro rfl
    have hnone : find Table.Default 0 = none := by decide
    rw [hnone] at hfind
    exact absurd hfind (by simp)
  have ha : a ≠ .RepeatLastAction := by
    rintro rfl
    exact h46 (hkey ▸ ((find_some (t := .Default) (k := k) hfind).2.2.2 rfl).2)
  have hrep : find (tableFor Table.Default 46) (keyOf 46) = some .RepeatLastAction := by decide
  obtain ⟨r, w, hinv, hH⟩ := Handle_member c depth
    ({ actionCount := n, lastAction := k, lastActionCount := m, wasSpecificCount := decide (k0 ≠ 0),
       action := .Default, world := w0,
       trace := tr ++ [⟨.RepeatLastAction, max k0 1, decide (k0 ≠ 0)⟩] } : Normal W)
    k a (by rw [hkey, htab]; exact hfind) ha
  simp only [hkey, htab, ne_eq, h46, not_false_eq_true, if_true, count_eq_max,
    List.append_assoc, List.singleton_append] at hinv hH
  refine ⟨r, w, hinv, ?_⟩
  rw [Handle_repeat c (depth + 1) _ 46 hrep]
  simp only [ne_eq, hk0, not_false_eq_true, if_true, count_eq_max, ← hn, hH]

end Branches

/-! ## Nesting of `Handle` -/

section Nesting

variable {W : Type} (c : Collab W)

/-- A key that does not reach `RepeatLastAction` is handled the same way
whatever nesting is allowed: no nested call is made. -/
theorem Handle_simple_depth (depth : Nat) (s : Normal W) (input : Nat)
    (h : find (tableFor s.action input) (keyOf input) ≠ some .RepeatLastAction) :
    Handle c (depth + 1) s input = Handle c 1 s input := by
  by_cases hd : 48 ≤ keyOf input ∧ keyOf input ≤ 57 ∧ tableFor s.action input ≠ .Escape
  · rw [Handle_digit c depth s input hd, Handle_digit c 0 s input hd]
  · by_cases h27 : keyOf input = 27
    · rw [Handle_cancel c depth s input h27, Handle_cancel c 0 s input h27]
    · cases hfind : find (tableFor s.action input) (keyOf input) with
      | none =>
        rw [Handle_unbound c depth s input hd h27 hfind, Handle_unbound c 0 s input hd h27 hfind]
      | some a =>
        have ha : a ≠ .RepeatLastAction := fun e => h (by rw [hfind, e])
        obtain ⟨r, w, hw⟩ := invoke_world c a ha
          { s with
            action := tableFor s.action input
            wasSpecificCount := decide (s.actionCount ≠ 0)
            lastAction := if keyOf input ≠ 46 then keyOf input else s.lastAction
            lastActionCount := if keyOf input ≠ 46 then s.actionCount else s.lastActionCount
            trace := s.trace ++ [⟨a, if s.actionCount > 0 then s.actionCount else 1,
              decide (s.actionCount ≠ 0)⟩] }
          (if s.actionCount > 0 then s.actionCount else 1)
        rw [Handle_bound c depth s input a hfind, Handle_bound c 0 s input a hfind, hw, hw]

/-- What a call that does not reach `RepeatLastAction` adds to the observation
log: at most one entry, never `RepeatLastAction`; and it never remembers
`'.'`. -/
theorem Handle_simple_trace (depth : Nat) (s : Normal W) (input : Nat) (r : Bool) (t : Normal W)
    (h : find (tableFor s.action input) (keyOf input) ≠ some .RepeatLastAction)
    (hH : Handle c depth s input = some (r, t)) :
    (∃ added, t.trace = s.trace ++ added ∧ added.length ≤ 1
        ∧ ∀ i ∈ added, i.actionFunc ≠ .RepeatLastAction)
      ∧ (s.lastAction ≠ 46 → t.lastAction ≠ 46) := by
  cases depth with
  | zero => exact absurd hH (by simp [Handle])
  | succ d =>
    by_cases hd : 48 ≤ keyOf input ∧ keyOf input ≤ 57 ∧ tableFor s.action input ≠ .Escape
    · rw [Handle_digit c d s input hd] at hH
      simp only [Option.some.injEq, Prod.mk.injEq] at hH
      obtain ⟨-, rfl⟩ := hH
      refine ⟨⟨[], ?_, by simp, by simp⟩, fun hl => ?_⟩ <;> split <;> simp_all
    · by_cases h27 : keyOf input = 27
      · rw [Handle_cancel c d s input h27] at hH
        simp only [Option.some.injEq, Prod.mk.injEq] at hH
        obtain ⟨-, rfl⟩ := hH
        exact ⟨⟨[], by simp, by simp, by simp⟩, fun hl => hl⟩
      · cases hfind : find (tableFor s.action input) (keyOf input) with
        | none =>
          rw [Handle_unbound c d s input hd h27 hfind] at hH
          simp only [Option.some.injEq, Prod.mk.injEq] at hH
          obtain ⟨-, rfl⟩ := hH
          exact ⟨⟨[], by simp, by simp, by simp⟩, fun hl => hl⟩
        | some a =>
          have ha : a ≠ .RepeatLastAction := fun e => h (by rw [hfind, e])
          obtain ⟨r2, w, -, hM⟩ := Handle_member c d s input a hfind ha
          rw [hM] at hH
          simp only [Option.some.injEq, Prod.mk.injEq] at hH
          obtain ⟨-, rfl⟩ := hH
          refine ⟨⟨[_], rfl, by simp, ?_⟩, fun hl => ?_⟩
          · intro i hi
            simp only [List.mem_singleton] at hi
            rw [hi]
            exact ha
          · show (if keyOf input ≠ 46 then keyOf input else s.lastAction) ≠ 46
            split <;> assumption

/-- With a remembered key other than `'.'`, two levels of nesting are all a
call of `Handle` uses. -/
theorem Handle_depth_two (depth : Nat) (s : Normal W) (input : Nat) (hl : s.lastAction ≠ 46) :
    Handle c (depth + 2) s input = Handle c 2 s input := by
  by_cases hrep : find (tableFor s.action input) (keyOf input) = some .RepeatLastAction
  · rw [Handle_repeat c (depth + 1) s input hrep, Handle_repeat c 1 s input hrep]
    by_cases h0 : s.lastAction = 0
    · simp only [h0, ne_eq, not_true_eq_false, if_false]
    · simp only [ne_eq, h0, not_false_eq_true, if_true]
      rw [Handle_simple_depth c depth _ s.lastAction
        (fun e => hl ((find_repeat_iff s.lastAction).1 e))]
  · rw [Handle_simple_depth c (depth + 1) s input hrep, Handle_simple_depth c 1 s input hrep]

/-- What any returning call of `Handle` adds to the observation log when the
remembered key is not `'.'`: at most two entries, at most one of them
`RepeatLastAction`; and the remembered key is still not `'.'`. -/
theorem Handle_trace (depth : Nat) (s : Normal W) (input : Nat) (r : Bool) (t : Normal W)
    (hl : s.lastAction ≠ 46) (hH : Handle c depth s input = some (r, t)) :
    (∃ added, t.trace = s.trace ++ added ∧ added.length ≤ 2
        ∧ added.countP (fun i => decide (i.actionFunc = .RepeatLastAction)) ≤ 1)
      ∧ t.lastAction ≠ 46 := by
  by_cases hrep : find (tableFor s.action input) (keyOf input) = some .RepeatLastAction
  · cases depth with
    | zero => exact absurd hH (by simp [Handle])
    | succ d =>
      rw [Handle_repeat c d s input hrep] at hH
      by_cases h0 : s.lastAction = 0
      · rw [if_neg (show ¬ s.lastAction ≠ 0 from fun h => h h0)] at hH
        simp only [Option.some.injEq, Prod.mk.injEq] at hH
        obtain ⟨-, rfl⟩ := hH
        exact ⟨⟨[_], rfl, by simp, by simp [List.countP_cons]⟩, hl⟩
      · rw [if_pos (show s.lastAction ≠ 0 from h0)] at hH
        split at hH
        · rename_i r2 hnest
          simp only [Option.some.injEq, Prod.mk.injEq] at hH
          obtain ⟨-, rfl⟩ := hH
          obtain ⟨⟨added, htr, hlen, hno⟩, hlast⟩ := Handle_simple_trace c d _ s.lastAction
            r2.1 r2.2 (fun e => hl ((find_repeat_iff s.lastAction).1 e)) hnest
          refine ⟨⟨⟨.RepeatLastAction, if s.actionCount > 0 then s.actionCount else 1,
            decide (s.actionCount ≠ 0)⟩ :: added, ?_, by simp only [List.length_cons]; omega, ?_⟩,
            hlast hl⟩
          · show r2.2.trace = _
            rw [htr, List.append_assoc, List.singleton_append]
          · rw [List.countP_cons, List.countP_eq_zero.2 (fun i hi => by simpa using hno i hi)]
            simp
        · exact absurd hH (by simp)
  · obtain ⟨⟨added, htr, hlen, hno⟩, hlast⟩ := Handle_simple_trace c depth s input r t hrep hH
    refine ⟨⟨added, htr, by omega, ?_⟩, hlast hl⟩
    rw [List.countP_eq_zero.2 (fun i hi => by simpa using hno i hi)]
    omega

/-- In every reachable state the remembered key is not `'.'`. -/
theorem Reachable_lastAction {s : Normal W} (hs : Reachable c s) : s.lastAction ≠ 46 := by
  induction hs with
  | init w => exact (by decide : (0 : Nat) ≠ 46)
  | step _ hH ih => exact (Handle_trace c _ _ _ _ _ ih hH).2

/-- A counted loop that repeats one collaborator call iterates its effect on
the world. -/
theorem forLoop_call (k : Call) :
    ∀ (n i : Nat) (s : Normal W),
      forLoop (fun _ t => Normal.call c t k) n i s
        = { s with world := Nat.iterate (c.exec k) n s.world } := by
  intro n
  induction n with
  | zero => intro i s; rfl
  | succ n ih =>
    intro i s
    rw [forLoop, ih]
    rfl

/-- What a call of `Handle` on an unmarked key other than `'.'` does to
`wasSpecificCount_`: a bound key sets it from the pending count, any other
key leaves it. -/
theorem Handle_unmarked_flag (depth : Nat) (s : Normal W) (k : Nat) (r : Bool) (t : Normal W)
    (hk : k < 2147483648) (h46 : k ≠ 46) (h : Handle c depth s k = some (r, t)) :
    ((find s.action k).isSome = true → t.wasSpecificCount = decide (s.actionCount ≠ 0))
      ∧ (find s.action k = none → t.wasSpecificCount = s.wasSpecificCount) := by
  have hkey : keyOf k = k := keyOf_of_lt hk
  have htab : tableFor s.action k = s.action := tableFor_of_lt s.action hk
  cases depth with
  | zero => exact absurd h (by simp [Handle])
  | succ d =>
    cases hfind : find s.action k with
    | some a =>
      have hfind2 : find (tableFor s.action k) (keyOf k) = some a := by rw [hkey, htab, hfind]
      have ha : a ≠ .RepeatLastAction := fun e => h46 (hkey ▸ ((find_some hfind2).2.2.2 e).2)
      obtain ⟨r2, w, -, hH⟩ := Handle_member c d s k a hfind2 ha
      rw [hH] at h
      simp only [Option.some.injEq, Prod.mk.injEq] at h
      obtain ⟨-, rfl⟩ := h
      exact ⟨fun _ => rfl, fun e => absurd e (by simp)⟩
    | none =>
      refine ⟨fun e => absurd e (by simp), fun _ => ?_⟩
      by_cases hd : 48 ≤ keyOf k ∧ keyOf k ≤ 57 ∧ tableFor s.action k ≠ .Escape
      · rw [Handle_digit c d s k hd] at h
        simp only [Option.some.injEq, Prod.mk.injEq] at h
        obtain ⟨-, rfl⟩ := h
        split <;> rfl
      · by_cases h27 : keyOf k = 27
        · rw [Handle_cancel c d s k h27] at h
          simp only [Option.some.injEq, Prod.mk.injEq] at h
          obtain ⟨-, rfl⟩ := h
          rfl
        · rw [Handle_unbound c d s k hd h27 (by rw [hkey, htab, hfind])] at h
          simp only [Option.some.injEq, Prod.mk.injEq] at h
          obtain ⟨-, rfl⟩ := h
          rfl

/-- The dispatch of an unmarked key bound in `actionTable_` to a member other
than `RepeatLastAction`, as far as the dispatcher's fields go. -/
theorem dispatch_step (depth : Nat) (s : Normal W) (k : Nat) (a : Action)
    (htable : s.action = .Default) (hfind : find .Default k = some a) (h46 : k ≠ 46) :
    ∃ r t, Handle c (depth + 1) s k = some (r, t) ∧ t.action = .Default ∧ t.actionCount = 0
      ∧ t.lastAction = k ∧ t.lastActionCount = s.actionCount
      ∧ t.trace = s.trace ++ [⟨a, max s.actionCount 1, decide (s.actionCount ≠ 0)⟩] := by
  have hk : k < 2147483648 := (find_some hfind).2.1
  have hkey : keyOf k = k := keyOf_of_lt hk
  have htab : tableFor s.action k = .Default := by rw [tableFor_of_lt _ hk, htable]
  have hfind2 : find (tableFor s.action k) (keyOf k) = some a := by rw [hkey, htab, hfind]
  have ha : a ≠ .RepeatLastAction := fun e => h46 (hkey ▸ ((find_some hfind2).2.2.2 e).2)
  obtain ⟨r, w, -, hH⟩ := Handle_member c depth s k a hfind2 ha
  simp only [hkey, ne_eq, h46, not_false_eq_true, if_true, count_eq_max] at hH
  exact ⟨r, _, hH, rfl, rfl, rfl, rfl, rfl⟩

/-- The key `'.'` in `actionTable_` when the remembered key is bound there to a
member other than `RepeatLastAction`, as far as the dispatcher's fields go. -/
theorem repeat_step (depth : Nat) (s : Normal W) (a : Action) (n : Nat)
    (htable : s.action = .Default) (hfind : find .Default s.lastAction = some a)
    (h46 : s.lastAction ≠ 46)
    (hn : n = if s.actionCount > 0 then s.actionCount else s.lastActionCount) :
    ∃ t, Handle c (depth + 2) s 46 = some (true, t) ∧ t.action = .Default ∧ t.actionCount = 0
      ∧ t.lastAction = s.lastAction ∧ t.lastActionCount = n
      ∧ t.trace = s.trace ++ [⟨.RepeatLastAction, max s.actionCount 1,
          decide (s.actionCount ≠ 0)⟩, ⟨a, max n 1, decide (n ≠ 0)⟩] := by
  obtain ⟨r, w, -, hH⟩ := Handle_repeat_member c depth s a n htable hfind h46 hn
  exact ⟨_, hH, htable, rfl, rfl, rfl, rfl⟩

end Nesting

/-! ## Delete on the modelled playlist -/

/-- Cutting one entry out at index `c` leaves the first `c` entries. -/
theorem take_cut {α : Type} : ∀ (l : List α) (c : Nat),
    (l.take c ++ l.drop (c + 1)).take c = l.take c := by
  intro l
  induction l with
  | nil => intro c; simp
  | cons a l ih =>
    intro c
    cases c with
    | zero => simp
    | succ c => simp [ih c]

/-- Cutting one entry out at index `c` moves the later entries up by one. -/
theorem drop_cut {α : Type} : ∀ (l : List α) (c : Nat),
    (l.take c ++ l.drop (c + 1)).drop c = l.drop (c + 1) := by
  intro l
  induction l with
  | nil => intro c; simp
  | cons a l ih =>
    intro c
    cases c with
    | zero => simp
    | succ c => simp [ih c]

/-- Cutting `n + 1` entries out at index `c` is cutting one and then `n`. -/
theorem cut_succ {α : Type} (l : List α) (c n : Nat) :
    (l.take c ++ l.drop (c + 1)).take c ++ (l.take c ++ l.drop (c + 1)).drop (c + n)
      = l.take c ++ l.drop (c + (n + 1)) := by
  rw [take_cut, ← List.drop_drop, drop_cut, List.drop_drop]
  congr 2
  omega

/-- The entries cut out by `n + 1` removals at index `c`, in removal order. -/
theorem removed_succ {α : Type} (l : List α) (c n : Nat) :
    (l.drop c).take 1 ++ ((l.take c ++ l.drop (c + 1)).drop c).take n
      = (l.drop c).take (n + 1) := by
  rw [drop_cut, ← List.drop_drop]
  cases h : l.drop c with
  | nil => simp
  | cons a t => simp

/-- Cutting `n` entries out at index `c` leaves the first `c` entries. -/
theorem take_cut_block {α : Type} : ∀ (l : List α) (c n : Nat),
    (l.take c ++ l.drop (c + n)).take c = l.take c := by
  intro l
  induction l with
  | nil => intro c n; simp
  | cons a l ih =>
    intro c n
    cases c with
    | zero => simp
    | succ c =>
      have h : c + 1 + n = (c + n) + 1 := by omega
      simp [h, ih c n]

/-- Cutting `n` entries out at index `c` moves the later entries up by `n`. -/
theorem drop_cut_block {α : Type} : ∀ (l : List α) (c n : Nat),
    (l.take c ++ l.drop (c + n)).drop c = l.drop (c + n) := by
  intro l
  induction l with
  | nil => intro c n; simp
  | cons a l ih =>
    intro c n
    cases c with
    | zero => simp
    | succ c =>
      have h : c + 1 + n = (c + n) + 1 := by omega
      simp [h, ih c n]

/-- A cursor line below `2^31` is its own `int32_t` value. -/
theorem toInt32_of_lt {n : Nat} (h : n < 2147483648) : toInt32 n = (n : Int) := by
  have h1 : n % UINT32_MOD = n := Nat.mod_eq_of_lt (by simp only [UINT32_MOD]; omega)
  simp only [toInt32, h1, ESCAPE_MARKER, h, if_true]

/-- One iteration of the loop of `DeleteSong` on the playlist pane of the
modelled collaborators: the entry at the cursor line leaves the daemon-side
and the local playlist and joins the clipboard. -/
theorem DeleteSongBody_session (line i : Nat) (s : Normal Session)
    (hpane : s.world.activeWindow = 4) (hline : line < 2147483648) :
    DeleteSongBody session line i s =
      { s with
        world :=
          { s.world with
            playlist := s.world.playlist.take line ++ s.world.playlist.drop (line + 1)
            clipboard := s.world.clipboard ++ (s.world.playlist.drop line).take 1
            daemon := s.world.daemon.take line ++ s.world.daemon.drop (line + 1) } } := by
  have hb : ¬ (s.get session .GetActiveWindow = session.Browse) := by
    show ¬ (s.world.activeWindow = 3)
    rw [hpane]; decide
  simp only [DeleteSongBody, hb, decide_False, Bool.false_eq_true, if_false,
    toInt32_of_lt hline, Int.natCast_nonneg, if_true, Int.toNat_ofNat]
  rfl

/-- The loop of `DeleteSong<Single>` on the playlist pane of the modelled
collaborators: `n` iterations cut the `n` entries from the cursor line on
(as many as there are) out of both playlists and put them on the clipboard in
order. -/
theorem DeleteSong_loop_session (line : Nat) (hline : line < 2147483648) :
    ∀ (n i : Nat) (s : Normal Session), s.world.activeWindow = 4 →
      forLoop (DeleteSongBody session line) n i s =
        { s with
          world :=
            { s.world with
              playlist := s.world.playlist.take line ++ s.world.playlist.drop (line + n)
              clipboard := s.world.clipboard ++ (s.world.playlist.drop line).take n
              daemon := s.world.daemon.take line ++ s.world.daemon.drop (line + n) } } := by
  intro n
  induction n with
  | zero =>
    intro i s _
    simp [forLoop]
  | succ n ih =>
    intro i s hpane
    rw [forLoop, DeleteSongBody_session line i s hpane hline]
    refine Eq.trans (ih (i + 1) _ ?_) ?_
    · exact hpane
    · simp only [cut_succ, List.append_assoc, removed_succ]

/-- The member `DeleteSong<Single>` on the playlist pane of the modelled
collaborators, cursor line below `2^31`: the clipboard is cleared and then
holds the entries cut out. -/
theorem DeleteSong_single_session (s : Normal Session) (n : Nat)
    (hpane : s.world.activeWindow = 4) (hline : s.world.currentLine < 2147483648) :
    DeleteSong session .Single s n =
      (true,
        { s with
          world :=
            { s.world with
              playlist := s.world.playlist.take s.world.currentLine
                ++ s.world.playlist.drop (s.world.currentLine + n)
              clipboard := (s.world.playlist.drop s.world.currentLine).take n
              daemon := s.world.daemon.take s.world.currentLine
                ++ s.world.daemon.drop (s.world.currentLine + n) } }) := by
  have hcond : s.get session .GetActiveWindow = session.Playlist
      ∨ s.get session .GetActiveWindow = session.Browse
      ∨ SongCollection.Single = SongCollection.All := Or.inl hpane
  have hloop := DeleteSong_loop_session s.world.currentLine hline n 0
    (s.call session .PasteBufferClear) hpane
  simp only [DeleteSong, if_pos hcond]
  show (true, _) = _
  congr 1
  have hget : s.get session .CurrentLine = s.world.currentLine := rfl
  rw [hget, hloop]
  have hnb : Normal.get session
      ({ s.call session .PasteBufferClear with
          world :=
            { (s.call session .PasteBufferClear).world with
              playlist := (s.call session .PasteBufferClear).world.playlist.take
                  s.world.currentLine
                ++ (s.call session .PasteBufferClear).world.playlist.drop
                  (s.world.currentLine + n)
              clipboard := (s.call session .PasteBufferClear).world.clipboard
                ++ ((s.call session .PasteBufferClear).world.playlist.drop
                  s.world.currentLine).take n
              daemon := (s.call session .PasteBufferClear).world.daemon.take
                  s.world.currentLine
                ++ (s.call session .PasteBufferClear).world.daemon.drop
                  (s.world.currentLine + n) } } : Normal Session)
        .GetActiveWindow ≠ session.Browse := by
    show s.world.activeWindow ≠ 3
    rw [hpane]; decide
  rw [if_pos hnb]
  simp [Normal.call, session, Session.exec]

/-- A cursor line from `2^31` on is a negative `int32_t`. -/
theorem toInt32_of_ge {n : Nat} (h : 2147483648 ≤ n) (hmax : n ≤ UINT32_MAX) : toInt32 n < 0 := by
  have h1 : n % UINT32_MOD = n :=
    Nat.mod_eq_of_lt (by simp only [UINT32_MOD, UINT32_MAX] at *; omega)
  simp only [toInt32, h1, ESCAPE_MARKER, UINT32_MOD, UINT32_MAX] at *
  rw [if_neg (by omega)]
  omega

/-- The member `DeleteSong<Single>` on the playlist pane of the modelled
collaborators, cursor line from `2^31` on: the `int32_t` index of line 348 is
negative, every iteration is skipped, and only the clipboard is cleared. -/
theorem DeleteSong_single_session_high (s : Normal Session) (n : Nat)
    (hpane : s.world.activeWindow = 4) (hline : 2147483648 ≤ s.world.currentLine)
    (hmax : s.world.currentLine ≤ UINT32_MAX) :
    DeleteSong session .Single s n =
      (true, { s with world := { s.world with clipboard := [] } }) := by
  have hcond : s.get session .GetActiveWindow = session.Playlist
      ∨ s.get session .GetActiveWindow = session.Browse
      ∨ SongCollection.Single = SongCollection.All := Or.inl hpane
  have hbody : ∀ (i : Nat) (t : Normal Session), t.world.activeWindow = 4 →
      DeleteSongBody session s.world.currentLine i t = t := by
    intro i t ht
    have hb : ¬ (t.get session .GetActiveWindow = session.Browse) := by
      show ¬ (t.world.activeWindow = 3)
      rw [ht]; decide
    have hneg : ¬ (0 ≤ toInt32 s.world.currentLine) := by
      have := toInt32_of_ge hline hmax
      omega
    simp only [DeleteSongBody, hb, decide_False, Bool.false_eq_true, if_false, hneg]
  have hloop : ∀ (m i : Nat) (t : Normal Session), t.world.activeWindow = 4 →
      forLoop (DeleteSongBody session s.world.currentLine) m i t = t := by
    intro m
    induction m with
    | zero => intro i t _; rfl
    | succ m ih =>
      intro i t ht
      rw [forLoop, hbody i t ht, ih (i + 1) t ht]
  simp only [DeleteSong, if_pos hcond]
  show (true, _) = _
  congr 1
  have hget : s.get session .CurrentLine = s.world.currentLine := rfl
  rw [hget, hloop n 0 (s.call session .PasteBufferClear) hpane]
  have hnb : Normal.get session (s.call session .PasteBufferClear) .GetActiveWindow
      ≠ session.Browse := by
    show s.world.activeWindow ≠ 3
    rw [hpane]; decide
  rw [if_pos hnb]
  rfl

/-! ## Paste -/

section Paste

variable {W : Type} (c : Collab W)

/-- One more insert adds its daemon call and its local call to the log. -/
theorem pasteLog_succ (b : Nat → Nat) (k cur m : Nat) :
    pasteLog b k cur (m + 1)
      = pasteLog b k cur m
        ++ [Call.ClientAdd (b (m % k)) ((cur + m) % UINT32_MOD),
            Call.PlaylistAdd (b (m % k)) ((cur + m) % UINT32_MOD)] := by
  have h2 : 2 * (m + 1) = 2 * m + 1 + 1 := by omega
  have e1 : 2 * m % 2 = 0 := by omega
  have e2 : 2 * m / 2 = m := by omega
  have e3 : (2 * m + 1) % 2 = 1 := by omega
  have e4 : (2 * m + 1) / 2 = m := by omega
  simp only [pasteLog, h2, List.range_succ, List.map_append, List.map_cons, List.map_nil,
    List.append_assoc, List.singleton_append, e1, e2, e3, e4, if_true, one_ne_zero, if_false]

/-- The number of calls of `m` inserts. -/
theorem pasteLog_length (b : Nat → Nat) (k cur m : Nat) :
    (pasteLog b k cur m).length = 2 * m := by
  simp [pasteLog]

/-- Call number `2j` of a paste is the daemon call of insert `j`, call number
`2j + 1` its local call. -/
theorem pasteLog_calls (b : Nat → Nat) (k cur m j : Nat) (hj : j < m) :
    (pasteLog b k cur m)[2 * j]?
        = some (Call.ClientAdd (b (j % k)) ((cur + j) % UINT32_MOD))
      ∧ (pasteLog b k cur m)[2 * j + 1]?
        = some (Call.PlaylistAdd (b (j % k)) ((cur + j) % UINT32_MOD)) := by
  have e1 : 2 * j % 2 = 0 := by omega
  have e2 : 2 * j / 2 = j := by omega
  have e3 : (2 * j + 1) % 2 = 1 := by omega
  have e4 : (2 * j + 1) / 2 = j := by omega
  unfold pasteLog
  constructor
  · rw [List.getElem?_map, List.getElem?_range (by omega)]
    simp only [Option.map_some', e1, e2, if_true]
  · rw [List.getElem?_map, List.getElem?_range (by omega)]
    simp only [Option.map_some', e3, e4, one_ne_zero, if_false]

/-- The inner loop of `PasteBuffer` with at least one test left. -/
theorem PasteBufferInner_succ (fuel j position : Nat) (s : Normal (W × List Call)) :
    PasteBufferInner (traced c) (fuel + 1) j position s =
      if j < c.ask .PasteBufferSize s.world.1 then
        PasteBufferInner (traced c) fuel (j + 1) ((position + 1) % UINT32_MOD)
          { s with
            world :=
              (c.exec (.PlaylistAdd
                  (c.ask (.PasteBufferGet j)
                    (c.exec (.ClientAdd (c.ask (.PasteBufferGet j) s.world.1)
                      ((c.ask .CurrentLine s.world.1 + position) % UINT32_MOD)) s.world.1))
                  ((c.ask .CurrentLine
                    (c.exec (.ClientAdd (c.ask (.PasteBufferGet j) s.world.1)
                      ((c.ask .CurrentLine s.world.1 + position) % UINT32_MOD)) s.world.1)
                    + position) % UINT32_MOD))
                (c.exec (.ClientAdd (c.ask (.PasteBufferGet j) s.world.1)
                  ((c.ask .CurrentLine s.world.1 + position) % UINT32_MOD)) s.world.1),
               s.world.2
                ++ [Call.ClientAdd (c.ask (.PasteBufferGet j) s.world.1)
                  ((c.ask .CurrentLine s.world.1 + position) % UINT32_MOD)]
                ++ [Call.PlaylistAdd
                  (c.ask (.PasteBufferGet j)
                    (c.exec (.ClientAdd (c.ask (.PasteBufferGet j) s.world.1)
                      ((c.ask .CurrentLine s.world.1 + position) % UINT32_MOD)) s.world.1))
                  ((c.ask .CurrentLine
                    (c.exec (.ClientAdd (c.ask (.PasteBufferGet j) s.world.1)
                      ((c.ask .CurrentLine s.world.1 + position) % UINT32_MOD)) s.world.1)
                    + position) % UINT32_MOD)]) }
      else (position, s) := by
  rfl

/-- The inner loop of `PasteBuffer` when `client_.Add` and `Playlist().Add`
leave every getter as it is: started at index `j` of pass `p` with
`p*k + j` inserts logged, it logs the inserts up to `(p+1)*k`, `k` being the
clipboard size. -/
theorem PasteBufferInner_log (w0 : W) (l0 : List Call) (b : Nat → Nat) (k cur : Nat)
    (hstable : ∀ (song position : Nat) (w : W) (q : Query),
      c.ask q (c.exec (.ClientAdd song position) w) = c.ask q w
        ∧ c.ask q (c.exec (.PlaylistAdd song position) w) = c.ask q w)
    (hb : ∀ i, c.ask (.PasteBufferGet i) w0 = b i) (hk : c.ask .PasteBufferSize w0 = k)
    (hcur : c.ask .CurrentLine w0 = cur) (p : Nat) :
    ∀ (fuel j : Nat) (s : Normal (W × List Call)), j ≤ k → k - j ≤ fuel →
      (∀ q, c.ask q s.world.1 = c.ask q w0) →
      s.world.2 = l0 ++ pasteLog b k cur (p * k + j) →
      (PasteBufferInner (traced c) fuel j ((p * k + j) % UINT32_MOD) s).1
          = ((p + 1) * k) % UINT32_MOD
        ∧ (∀ q, c.ask q (PasteBufferInner (traced c) fuel j ((p * k + j) % UINT32_MOD) s).2.world.1
            = c.ask q w0)
        ∧ (PasteBufferInner (traced c) fuel j ((p * k + j) % UINT32_MOD) s).2.world.2
          = l0 ++ pasteLog b k cur ((p + 1) * k) := by
  intro fuel
  induction fuel with
  | zero =>
    intro j s hj hfuel hinv hlog
    have hjk : j = k := by omega
    subst hjk
    have he : (p + 1) * j = p * j + j := by rw [Nat.add_mul, Nat.one_mul]
    rw [he]
    exact ⟨rfl, hinv, hlog⟩
  | succ fuel ih =>
    intro j s hj hfuel hinv hlog
    rw [PasteBufferInner_succ, hinv .PasteBufferSize, hk]
    by_cases hlt : j < k
    · rw [if_pos hlt]
      have hmod : (p * k + j) % k = j := by
        rw [Nat.mul_comm, Nat.mul_add_mod, Nat.mod_eq_of_lt hlt]
      have hpos : ((p * k + j) % UINT32_MOD + 1) % UINT32_MOD
          = (p * k + (j + 1)) % UINT32_MOD := by
        rw [Nat.mod_add_mod, Nat.add_assoc]
      have hline : (cur + (p * k + j) % UINT32_MOD) % UINT32_MOD
          = (cur + (p * k + j)) % UINT32_MOD := Nat.add_mod_mod _ _ _
      rw [hpos]
      apply ih (j + 1) _ (by omega) (by omega)
      · intro q
        show c.ask q (c.exec _ (c.exec _ s.world.1)) = c.ask q w0
        rw [(hstable _ _ _ q).2, (hstable _ _ _ q).1, hinv q]
      · show s.world.2 ++ _ ++ _ = _
        rw [(hstable _ _ _ (.PasteBufferGet j)).1, (hstable _ _ _ .CurrentLine).1,
          hinv (.PasteBufferGet j), hinv .CurrentLine, hb, hcur, hline, hlog,
          (by omega : p * k + (j + 1) = p * k + j + 1), pasteLog_succ, hmod]
        simp only [List.append_assoc, List.singleton_append]
    · rw [if_neg hlt]
      have hjk : j = k := by omega
      subst hjk
      have he : (p + 1) * j = p * j + j := by rw [Nat.add_mul, Nat.one_mul]
      rw [he]
      exact ⟨rfl, hinv, hlog⟩

/-- The outer loop of `PasteBuffer` under the same assumption: `n` passes
after `p` passes log the inserts up to `(p + n) * k`. -/
theorem PasteBufferOuter_log (w0 : W) (l0 : List Call) (b : Nat → Nat) (k cur : Nat)
    (hstable : ∀ (song position : Nat) (w : W) (q : Query),
      c.ask q (c.exec (.ClientAdd song position) w) = c.ask q w
        ∧ c.ask q (c.exec (.PlaylistAdd song position) w) = c.ask q w)
    (hb : ∀ i, c.ask (.PasteBufferGet i) w0 = b i) (hk : c.ask .PasteBufferSize w0 = k)
    (hcur : c.ask .CurrentLine w0 = cur) (hsize : k ≤ UINT32_MAX) :
    ∀ (n p : Nat) (s : Normal (W × List Call)),
      (∀ q, c.ask q s.world.1 = c.ask q w0) →
      s.world.2 = l0 ++ pasteLog b k cur (p * k) →
      (∀ q, c.ask q (PasteBufferOuter (traced c) n ((p * k) % UINT32_MOD) s).world.1 = c.ask q w0)
        ∧ (PasteBufferOuter (traced c) n ((p * k) % UINT32_MOD) s).world.2
          = l0 ++ pasteLog b k cur ((p + n) * k) := by
  intro n
  induction n with
  | zero => intro p s hinv hlog; exact ⟨hinv, hlog⟩
  | succ n ih =>
    intro p s hinv hlog
    obtain ⟨h1, h2, h3⟩ := PasteBufferInner_log c w0 l0 b k cur hstable hb hk hcur p
      UINT32_MOD 0 s (Nat.zero_le _) (by simp only [UINT32_MOD, UINT32_MAX] at *; omega) hinv hlog
    rw [Nat.add_zero] at h1 h2 h3
    rw [PasteBufferOuter, h1]
    have he : p + (n + 1) = p + 1 + n := by omega
    rw [he]
    exact ih (p + 1) _ h2 h3

/-- The calls of `PasteBuffer` when `client_.Add` and `Playlist().Add` leave
every getter as it is and the clipboard size `k` is a `uint32_t`: the `n * k`
inserts of `pasteLog`, and the getters read afterwards what they read
before. -/
theorem PasteBuffer_log (s : Normal (W × List Call)) (n : Nat)
    (hstable : ∀ (song position : Nat) (w : W) (q : Query),
      c.ask q (c.exec (.ClientAdd song position) w) = c.ask q w
        ∧ c.ask q (c.exec (.PlaylistAdd song position) w) = c.ask q w)
    (hsize : c.ask .PasteBufferSize s.world.1 ≤ UINT32_MAX) :
    (∀ q, c.ask q (PasteBuffer (traced c) s n).2.world.1 = c.ask q s.world.1)
      ∧ (PasteBuffer (traced c) s n).2.world.2
        = s.world.2 ++ pasteLog (fun i => c.ask (.PasteBufferGet i) s.world.1)
            (c.ask .PasteBufferSize s.world.1) (c.ask .CurrentLine s.world.1)
            (n * c.ask .PasteBufferSize s.world.1) := by
  have h := PasteBufferOuter_log c s.world.1 s.world.2
    (fun i => c.ask (.PasteBufferGet i) s.world.1) (c.ask .PasteBufferSize s.world.1)
    (c.ask .CurrentLine s.world.1) hstable (fun _ => rfl) rfl rfl hsize n 0 s (fun _ => rfl)
    (by simp [pasteLog])
  simp only [Nat.zero_mul, Nat.zero_mod, Nat.zero_add] at h
  exact h

/-- The calls of `PasteBuffer` one by one, under the assumptions of
`PasteBuffer_log`: `2 * (n * k)` calls are added to the log, and insert `j`
is the pair of calls numbered `2j` and `2j + 1` among them. -/
theorem PasteBuffer_calls (s : Normal (W × List Call)) (n : Nat)
    (hstable : ∀ (song position : Nat) (w : W) (q : Query),
      c.ask q (c.exec (.ClientAdd song position) w) = c.ask q w
        ∧ c.ask q (c.exec (.PlaylistAdd song position) w) = c.ask q w)
    (hsize : c.ask .PasteBufferSize s.world.1 ≤ UINT32_MAX) :
    (PasteBuffer (traced c) s n).2.world.2.length
        = s.world.2.length + 2 * (n * c.ask .PasteBufferSize s.world.1)
      ∧ ∀ j, j < n * c.ask .PasteBufferSize s.world.1 →
          (PasteBuffer (traced c) s n).2.world.2[s.world.2.length + 2 * j]?
              = some (Call.ClientAdd
                  (c.ask (.PasteBufferGet (j % c.ask .PasteBufferSize s.world.1)) s.world.1)
                  ((c.ask .CurrentLine s.world.1 + j) % UINT32_MOD))
            ∧ (PasteBuffer (traced c) s n).2.world.2[s.world.2.length + 2 * j + 1]?
              = some (Call.PlaylistAdd
                  (c.ask (.PasteBufferGet (j % c.ask .PasteBufferSize s.world.1)) s.world.1)
                  ((c.ask .CurrentLine s.world.1 + j) % UINT32_MOD)) := by
  have hlog := (PasteBuffer_log c s n hstable hsize).2
  refine ⟨by rw [hlog, List.length_append, pasteLog_length], fun j hj => ?_⟩
  obtain ⟨h1, h2⟩ := pasteLog_calls (fun i => c.ask (.PasteBufferGet i) s.world.1)
    (c.ask .PasteBufferSize s.world.1) (c.ask .CurrentLine s.world.1)
    (n * c.ask .PasteBufferSize s.world.1) j hj
  rw [hlog]
  constructor
  · rw [List.getElem?_append_right (Nat.le_add_right _ _), Nat.add_sub_cancel_left, h1]
  · rw [List.getElem?_append_right (by omega), Nat.add_assoc, Nat.add_sub_cancel_left, h2]

end Paste

/-! ## Daemon calls and local mutations in lock-step -/

section Lockstep

variable {W : Type} (c : Collab W)

end Lockstep

/-! ## The claims -/

/-- C1: for every state and every key that, after marker handling, is bound in
the active table (such a key is neither folded as a digit nor the cancel key),
whenever `Handle` returns the pending count is 0 and the active table is
`Default`, whatever the member function returned and also when the key is
`'.'` and a nested dispatch took place; and `Handle` does return, with at most
one nested call, unless the remembered key is `'.'` itself. -/
theorem Handle_dispatch_resets {W : Type} (c : Collab W) (s : Normal W) (input : Nat)
    (a : Action) (hbound : find (tableFor s.action input) (keyOf input) = some a) :
    (∀ depth r t, Handle c depth s input = some (r, t) →
        t.actionCount = 0 ∧ t.action = .Default)
      ∧ (s.lastAction ≠ 46 → ∀ depth, ∃ r t, Handle c (depth + 2) s input = some (r, t)) := by
  constructor
  · intro depth r t h
    cases depth with
    | zero => simp [Handle] at h
    | succ d =>
      rw [Handle_bound c d s input a hbound] at h
      split at h
      · simp only [Option.some.injEq, Prod.mk.injEq] at h
        obtain ⟨-, rfl⟩ := h
        exact ⟨rfl, rfl⟩
      · exact absurd h (by simp)
  · intro h depth
    exact Handle_returns c depth s input h

/-- C1 at a concrete input: `'p'` with pending count 7 in a world where
`Player::Pause` reports failure. -/
theorem Handle_dispatch_resets_witness :
    find (tableFor Table.Default 112) (keyOf 112) = some Action.Pause
      ∧ ∃ t, Handle (recorder false) 2
          { actionCount := 7, lastAction := 106, lastActionCount := 2,
            wasSpecificCount := false, action := Table.Default, world := [], trace := [] }
          112 = some (false, t) ∧ t.actionCount = 0 ∧ t.action = Table.Default :=
  ⟨by decide, _, rfl,
    (Handle_dispatch_resets (recorder false)
      { actionCount := 7, lastAction := 106, lastActionCount := 2,
        wasSpecificCount := false, action := Table.Default, world := [], trace := [] }
      112 Action.Pause (by decide)).1 2 false _ rfl⟩

/-- C2: for every pending count `c ≤ 4294967295`, every digit key `'0'..'9'`
without the escape marker and every active table other than `Escape`,
`Handle` returns success and changes nothing but the pending count, which
becomes `c*10+d` when that is at most 4294967295 and stays `c` otherwise: no
member function is called and the table, `LastAction`, `WasSpecificCount` and
the world are as before. -/
theorem Handle_digit_folds {W : Type} (c : Collab W) (depth : Nat) (s : Normal W) (key : Nat)
    (hcount : s.actionCount ≤ UINT32_MAX) (hkey : 48 ≤ key ∧ key ≤ 57)
    (htable : s.action ≠ .Escape) :
    Handle c (depth + 1) s key =
      some (true,
        { s with
          actionCount := if s.actionCount * 10 + (key - 48) ≤ UINT32_MAX
                         then s.actionCount * 10 + (key - 48) else s.actionCount }) :=
  Handle_digit_unmarked c depth s key hcount hkey htable

/-- C2 at concrete inputs: `'7'` after pending count 12 folds to 127. -/
theorem Handle_digit_folds_witness :
    (12 ≤ UINT32_MAX ∧ (48 ≤ 55 ∧ 55 ≤ 57) ∧ Table.Jump ≠ Table.Escape)
      ∧ Handle (recorder true) 1
          { actionCount := 12, lastAction := 106, lastActionCount := 2,
            wasSpecificCount := true, action := Table.Jump, world := [], trace := [] } 55
        = some (true,
          { actionCount := 127, lastAction := 106, lastActionCount := 2,
            wasSpecificCount := true, action := Table.Jump, world := [], trace := [] }) :=
  ⟨⟨by decide, by decide, by decide⟩,
    Handle_digit_folds (recorder true) 0
      { actionCount := 12, lastAction := 106, lastActionCount := 2,
        wasSpecificCount := true, action := Table.Jump, world := [], trace := [] } 55
      (by decide) (by decide) (by decide)⟩

/-- C5: for every state, `Handle` of the cancel key (code 27), without or with
the escape marker, returns success, sets the active table to `Default` and
the pending count to 0, calls no member function and leaves `LastAction`,
`WasSpecificCount` and the world as they were. -/
theorem Handle_cancel_resets {W : Type} (c : Collab W) (depth : Nat) (s : Normal W) :
    Handle c (depth + 1) s 27 = some (true, { s with action := .Default, actionCount := 0 })
      ∧ Handle c (depth + 1) s (27 + ESCAPE_MARKER)
        = some (true, { s with action := .Default, actionCount := 0 }) :=
  ⟨Handle_cancel c depth s 27 (by decide), Handle_cancel c depth s (27 + ESCAPE_MARKER) (by decide)⟩

/-- C6: for every state and every key that, after marker handling, is not
folded as a digit, is not the cancel key and is not bound in the active table,
`Handle` returns success and changes nothing but the active table, which
becomes `Jump` for `'g'`, `Align` for `'z'` and `Default` for every other key:
no member function is called and the pending count, `LastAction`,
`WasSpecificCount` and the world are as before. -/
theorem Handle_unbound_switches {W : Type} (c : Collab W) (depth : Nat) (s : Normal W)
    (input : Nat)
    (hdigit : ¬ (48 ≤ keyOf input ∧ keyOf input ≤ 57 ∧ tableFor s.action input ≠ .Escape))
    (hcancel : keyOf input ≠ ESCAPE_KEY)
    (hunbound : find (tableFor s.action input) (keyOf input) = none) :
    Handle c (depth + 1) s input =
      some (true,
        { s with
          action := if keyOf input = 103 then .Jump
                    else if keyOf input = 122 then .Align else .Default }) :=
  Handle_unbound c depth s input hdigit hcancel hunbound

/-- C6 at a concrete input: `'g'` in the `Default` table with pending count 4
selects the `Jump` table and keeps the count. -/
theorem Handle_unbound_switches_witness :
    (¬ (48 ≤ keyOf 103 ∧ keyOf 103 ≤ 57 ∧ tableFor Table.Default 103 ≠ Table.Escape)
        ∧ keyOf 103 ≠ ESCAPE_KEY ∧ find (tableFor Table.Default 103) (keyOf 103) = none)
      ∧ Handle (recorder true) 1
          { actionCount := 4, lastAction := 106, lastActionCount := 2,
            wasSpecificCount := true, action := Table.Default, world := [], trace := [] } 103
        = some (true,
          { actionCount := 4, lastAction := 106, lastActionCount := 2,
            wasSpecificCount := true, action := Table.Jump, world := [], trace := [] }) :=
  ⟨⟨by decide, by decide, by decide⟩,
    Handle_unbound_switches (recorder true) 0
      { actionCount := 4, lastAction := 106, lastActionCount := 2,
        wasSpecificCount := true, action := Table.Default, world := [], trace := [] } 103
      (by decide) (by decide) (by decide)⟩

/-- C3, as stated, fails: fed the digits of 4294967296 from pending count 0 in
the `Default` table, `Handle` leaves the pending count 429496729 (the last
fold is discarded), while `min(4294967296, 4294967295)` is 4294967295. -/
theorem digits_not_min_counterexample :
    (HandleKeys (recorder true) 1 (Normal.init [])
        [52, 50, 57, 52, 57, 54, 55, 50, 57, 54]).map (fun t => t.actionCount)
        = some 429496729
      ∧ decimal [4, 2, 9, 4, 9, 6, 7, 2, 9, 6] = 4294967296
      ∧ min (decimal [4, 2, 9, 4, 9, 6, 7, 2, 9, 6]) UINT32_MAX = 4294967295 :=
  ⟨by decide, by decide, by decide⟩

/-- C3, amended: for every finite sequence of digit keys fed to `Handle` from
pending count 0 in the `Default` table, every call returns and only the
pending count changes; it ends as the digits folded in order with every fold
that would exceed 4294967295 discarded, is never above 4294967295, and equals
the integer `N` the digits spell whenever `N ≤ 4294967295`. -/
theorem digits_fold_with_discard {W : Type} (c : Collab W) (depth : Nat) (s : Normal W)
    (ds : List Nat) (hcount : s.actionCount = 0) (htable : s.action = .Default)
    (hds : ∀ d ∈ ds, d ≤ 9) :
    HandleKeys c (depth + 1) s (ds.map (fun d => 48 + d))
        = some { s with actionCount := foldCount ds }
      ∧ foldCount ds ≤ UINT32_MAX
      ∧ (decimal ds ≤ UINT32_MAX → foldCount ds = decimal ds) := by
  refine ⟨?_, foldl_discard_le ds 0 (by decide), fun h => foldl_discard_eq ds 0 h⟩
  have h := HandleKeys_digits c depth ds s (by rw [hcount]; decide)
    (by rw [htable]; decide) hds
  rw [hcount] at h
  exact h

/-- C3, amended, at a concrete input: the keys `'4' '2'` leave the count 42. -/
theorem digits_fold_with_discard_witness :
    ((Normal.init ([] : List Call)).actionCount = 0
        ∧ (Normal.init ([] : List Call)).action = Table.Default
        ∧ ∀ d ∈ [4, 2], d ≤ 9)
      ∧ HandleKeys (recorder true) 1 (Normal.init []) [52, 50]
        = some { Normal.init [] with actionCount := 42 } :=
  ⟨⟨rfl, rfl, by decide⟩,
    (digits_fold_with_discard (recorder true) 0 (Normal.init []) [4, 2] rfl rfl
      (by decide)).1⟩

/-- C4: for every pending count `n` and every key other than `'.'` that, after
marker handling, is bound in the active table, `Handle` calls the bound member
function exactly once, with the count `max(n, 1) ≥ 1`: the member runs on the
state lines 195-203 prepare and changes only the world, the observation log
grows by that one call, and `Handle` returns the member's result after
resetting and repainting. In particular the keys `'3'` then `'j'` from pending
count 0 in the `Default` table make the one collaborator call
`screen_.Scroll(Line, Down, 3)` before the repaint. -/
theorem Handle_invokes_once {W : Type} (c : Collab W) (depth : Nat) (s : Normal W)
    (input : Nat) (a : Action)
    (hbound : find (tableFor s.action input) (keyOf input) = some a)
    (hkey : keyOf input ≠ 46) :
    (∃ r w,
        (∀ h, invoke c h a
            { s with
              action := tableFor s.action input
              wasSpecificCount := decide (s.actionCount ≠ 0)
              lastAction := keyOf input
              lastActionCount := s.actionCount
              trace := s.trace ++ [⟨a, max s.actionCount 1, decide (s.actionCount ≠ 0)⟩] }
            (max s.actionCount 1) =
          some (r,
            { s with
              action := tableFor s.action input
              wasSpecificCount := decide (s.actionCount ≠ 0)
              lastAction := keyOf input
              lastActionCount := s.actionCount
              trace := s.trace ++ [⟨a, max s.actionCount 1, decide (s.actionCount ≠ 0)⟩]
              world := w }))
        ∧ Handle c (depth + 1) s input =
          some (r,
            { s with
              actionCount := 0
              action := .Default
              wasSpecificCount := decide (s.actionCount ≠ 0)
              lastAction := keyOf input
              lastActionCount := s.actionCount
              trace := s.trace ++ [⟨a, max s.actionCount 1, decide (s.actionCount ≠ 0)⟩]
              world := c.exec .ScreenUpdate (c.exec .ModeWindowSetLine w) }))
      ∧ 1 ≤ max s.actionCount 1
      ∧ (∀ s0 : Normal W, s0.actionCount = 0 → s0.action = .Default →
          HandleKeys c (depth + 1) s0 [51, 106] =
            some { s0 with
              actionCount := 0
              wasSpecificCount := true
              lastAction := 106
              lastActionCount := 3
              trace := s0.trace ++ [⟨.Scroll .Line .Down, 3, true⟩]
              world := c.exec .ScreenUpdate (c.exec .ModeWindowSetLine
                (c.exec (.ScreenScroll .Line .Down 3) s0.world)) }) := by
  refine ⟨?_, by omega, ?_⟩
  · have ha : a ≠ .RepeatLastAction := fun e => hkey ((find_some hbound).2.2.2 e).2
    obtain ⟨r, w, hinv, hH⟩ := Handle_member c depth s input a hbound ha
    simp only [ne_eq, hkey, not_false_eq_true, if_true, count_eq_max] at hinv hH
    exact ⟨r, w, hinv, hH⟩
  · intro s0 h0 ht
    obtain ⟨n, k, m, b, t, w, tr⟩ := s0
    simp only at h0 ht
    subst h0 ht
    have h3 : Handle c (depth + 1)
        ({ actionCount := 0, lastAction := k, lastActionCount := m, wasSpecificCount := b,
           action := .Default, world := w, trace := tr } : Normal W) 51
        = some (true,
            { actionCount := 3, lastAction := k, lastActionCount := m, wasSpecificCount := b,
              action := .Default, world := w, trace := tr }) :=
      Handle_digit_unmarked c depth _ 51 (Nat.zero_le _) (by decide)
        (by show Table.Default ≠ Table.Escape; decide)
    have hj : Handle c (depth + 1)
        ({ actionCount := 3, lastAction := k, lastActionCount := m, wasSpecificCount := b,
           action := .Default, world := w, trace := tr } : Normal W) 106
        = some (true,
            { actionCount := 0, lastAction := 106, lastActionCount := 3,
              wasSpecificCount := true, action := .Default,
              world := c.exec .ScreenUpdate (c.exec .ModeWindowSetLine
                (c.exec (.ScreenScroll .Line .Down 3) w)),
              trace := tr ++ [⟨.Scroll .Line .Down, 3, true⟩] }) := by
      rw [Handle_bound c depth _ 106 (.Scroll .Line .Down)
        (by show find (tableFor Table.Default 106) (keyOf 106) = _; decide)]
      rfl
    simp only [HandleKeys, h3, hj]

/-- C4 at a concrete input: `'k'` with pending count 5 in the `Default` table
calls `Scroll<Line, Up>` once with count 5. -/
theorem Handle_invokes_once_witness :
    (find (tableFor Table.Default 107) (keyOf 107) = some (Action.Scroll Size.Line Direction.Up)
        ∧ keyOf 107 ≠ 46)
      ∧ (Handle (recorder true) 1
          { actionCount := 5, lastAction := 0, lastActionCount := 0,
            wasSpecificCount := false, action := Table.Default, world := [], trace := [] }
          107).map (fun r => r.2.trace)
        = some [⟨Action.Scroll Size.Line Direction.Up, 5, true⟩]
      ∧ (Handle (recorder true) 1
          { actionCount := 5, lastAction := 0, lastActionCount := 0,
            wasSpecificCount := false, action := Table.Default, world := [], trace := [] }
          107).map (fun r => r.2.world)
        = some [Call.ScreenScroll Size.Line Direction.Up 5, Call.ModeWindowSetLine,
            Call.ScreenUpdate] := by
  refine ⟨⟨by decide, by decide⟩, ?_, by decide⟩
  obtain ⟨r, w, -, hH⟩ := (Handle_invokes_once (recorder true) 0
    { actionCount := 5, lastAction := 0, lastActionCount := 0,
      wasSpecificCount := false, action := Table.Default, world := [], trace := [] }
    107 (Action.Scroll Size.Line Direction.Up) (by decide) (by decide)).1
  rw [hH]
  rfl

/-- C7: for every digit `d` in 1..9, every pending count and every active
table, `Handle` of the key `'0' + d` carrying the escape marker does not fold
the digit: it calls `SetActiveWindow<Absolute, d-1>` from `escapeTable_` once,
whose one collaborator call is `screen_.SetActiveWindow` of window `d - 1`,
whatever the pending count, and returns success. -/
theorem Handle_escape_digit {W : Type} (c : Collab W) (depth : Nat) (s : Normal W) (d : Nat)
    (hd : 1 ≤ d ∧ d ≤ 9) :
    Handle c (depth + 1) s (48 + d + ESCAPE_MARKER) =
      some (true,
        { s with
          actionCount := 0
          action := .Default
          wasSpecificCount := decide (s.actionCount ≠ 0)
          lastAction := 48 + d
          lastActionCount := s.actionCount
          trace := s.trace ++ [⟨.SetActiveWindow .Absolute (d - 1), max s.actionCount 1,
            decide (s.actionCount ≠ 0)⟩]
          world := c.exec .ScreenUpdate (c.exec .ModeWindowSetLine
            (c.exec (.ScreenSetActiveWindow (d - 1)) s.world)) }) := by
  have hm : hasEscapeMarker (48 + d + ESCAPE_MARKER) = true := by
    simp only [hasEscapeMarker, ESCAPE_MARKER, decide_eq_true_eq]
    omega
  have hk : keyOf (48 + d + ESCAPE_MARKER) = 48 + d := by
    unfold keyOf
    rw [if_pos hm]
    simp only [ESCAPE_MARKER]
    omega
  have ht : tableFor s.action (48 + d + ESCAPE_MARKER) = .Escape := tableFor_marked _ hm
  have hfind : find (tableFor s.action (48 + d + ESCAPE_MARKER))
      (keyOf (48 + d + ESCAPE_MARKER)) = some (.SetActiveWindow .Absolute (d - 1)) := by
    rw [hk, ht]
    obtain ⟨h1, h9⟩ := hd
    interval_cases d <;> rfl
  have h46 : 48 + d ≠ 46 := by omega
  rw [Handle_bound c depth s _ _ hfind, hk, ht]
  simp only [invoke, SetActiveWindow, if_true, Normal.call, ne_eq, h46, not_false_eq_true,
    count_eq_max]

/-- C7 at a concrete input: escape-marked `'5'` with pending count 3 in the
`Jump` table selects window 4. -/
theorem Handle_escape_digit_witness :
    (1 ≤ 5 ∧ 5 ≤ 9)
      ∧ Handle (recorder true) 1
          { actionCount := 3, lastAction := 0, lastActionCount := 0,
            wasSpecificCount := false, action := Table.Jump, world := [], trace := [] }
          (48 + 5 + ESCAPE_MARKER)
        = some (true,
          { actionCount := 0, lastAction := 53, lastActionCount := 3,
            wasSpecificCount := true, action := Table.Default,
            world := [Call.ScreenSetActiveWindow 4, Call.ModeWindowSetLine, Call.ScreenUpdate],
            trace := [⟨Action.SetActiveWindow ScreenSkip.Absolute 4, 3, true⟩] }) :=
  ⟨by decide,
    Handle_escape_digit (recorder true) 0
      { actionCount := 3, lastAction := 0, lastActionCount := 0,
        wasSpecificCount := false, action := Table.Jump, world := [], trace := [] }
      5 (by decide)⟩

/-- C8: for every pending count `n` and every key other than `'.'` that, after
marker handling, is bound in the active table, `Handle` returns and afterwards
`LastAction` is the key with the marker stripped together with the raw
pending count `n` (0 when none was typed). -/
theorem Handle_records_last_action {W : Type} (c : Collab W) (depth : Nat) (s : Normal W)
    (input : Nat) (a : Action)
    (hbound : find (tableFor s.action input) (keyOf input) = some a)
    (hkey : keyOf input ≠ 46) :
    ∃ r t, Handle c (depth + 1) s input = some (r, t)
      ∧ t.lastAction = keyOf input ∧ t.lastActionCount = s.actionCount := by
  have ha : a ≠ .RepeatLastAction := fun e => hkey ((find_some hbound).2.2.2 e).2
  obtain ⟨r, w, -, hH⟩ := Handle_member c depth s input a hbound ha
  simp only [ne_eq, hkey, not_false_eq_true, if_true] at hH
  exact ⟨r, _, hH, rfl, rfl⟩

/-- C8 at a concrete input: `'G'` with no pending count is remembered with
count 0. -/
theorem Handle_records_last_action_witness :
    (find (tableFor Table.Default 71) (keyOf 71)
          = some (Action.ScrollToSpecific Location.Specific Location.Bottom)
        ∧ keyOf 71 ≠ 46)
      ∧ (Handle (recorder true) 1
          { actionCount := 0, lastAction := 106, lastActionCount := 9,
            wasSpecificCount := true, action := Table.Default, world := [], trace := [] }
          71).map (fun r => (r.2.lastAction, r.2.lastActionCount)) = some (71, 0) := by
  refine ⟨⟨by decide, by decide⟩, ?_⟩
  obtain ⟨r, t, hH, h1, h2⟩ := Handle_records_last_action (recorder true) 0
    { actionCount := 0, lastAction := 106, lastActionCount := 9,
      wasSpecificCount := true, action := Table.Default, world := [], trace := [] }
    71 (Action.ScrollToSpecific Location.Specific Location.Bottom) (by decide) (by decide)
  rw [hH]
  simp only [Option.map_some', h1, h2]
  rfl

/-- C9, as stated, fails: after the keys `'j'` `'3'` the `Default` table is
active and `LastAction` is `{'j', 0}`; `Handle` of `'.'` then returns with
`LastAction = {'j', 3}`: the nested dispatch of `'j'` has overwritten the
remembered count with the count typed before `'.'`. -/
theorem repeat_overwrites_count_counterexample :
    (HandleKeys (recorder true) 2 (Normal.init []) [106, 51]).map
        (fun t => (t.action, t.actionCount, t.lastAction, t.lastActionCount))
        = some (Table.Default, 3, 106, 0)
      ∧ (HandleKeys (recorder true) 2 (Normal.init []) [106, 51, 46]).map
        (fun t => (t.lastAction, t.lastActionCount)) = some (106, 3) :=
  ⟨by decide, by decide⟩

/-- C9, amended: the repeat key never changes the remembered key. For every
state with the `Default` table active and a remembered key without the escape
marker, and every pending count, whenever `Handle` of `'.'` returns the key of
`LastAction` is what it was before; its count is also what it was before when
no count was pending or the remembered key is not bound in `actionTable_`, and
it is the pending count when one was typed and the remembered key is bound
there (the nested dispatch stores it). `Handle` does return, with one nested
call at most, unless the remembered key is `'.'` itself. -/
theorem repeat_keeps_last_key {W : Type} (c : Collab W) (s : Normal W)
    (htable : s.action = .Default) (hlast : s.lastAction < ESCAPE_MARKER) :
    (∀ depth r t, Handle c depth s 46 = some (r, t) →
        t.lastAction = s.lastAction
          ∧ (s.actionCount = 0 → t.lastActionCount = s.lastActionCount)
          ∧ (find .Default s.lastAction = none → t.lastActionCount = s.lastActionCount)
          ∧ (0 < s.actionCount → (find .Default s.lastAction).isSome = true →
              t.lastActionCount = s.actionCount))
      ∧ (s.lastAction ≠ 46 → ∀ depth, ∃ r t, Handle c (depth + 2) s 46 = some (r, t)) := by
  refine ⟨?_, fun h depth => Handle_returns c depth s 46 h⟩
  intro depth r t h
  have hrep : find (tableFor s.action 46) (keyOf 46) = some .RepeatLastAction := by
    rw [htable]; decide
  have h46 : s.lastAction ≠ 46 := by
    intro e
    rw [Handle_repeat_diverges c depth s htable e] at h
    exact absurd h (by simp)
  cases depth with
  | zero => exact absurd h (by simp [Handle])
  | succ d =>
    rw [Handle_repeat c d s 46 hrep] at h
    by_cases h0 : s.lastAction = 0
    · rw [if_neg (by simpa using h0)] at h
      simp only [Option.some.injEq, Prod.mk.injEq] at h
      obtain ⟨-, rfl⟩ := h
      refine ⟨rfl, fun _ => rfl, fun _ => rfl, fun _ hsome => ?_⟩
      have hnone : find Table.Default 0 = none := by decide
      rw [h0, hnone] at hsome
      exact absurd hsome (by simp)
    · rw [if_pos h0] at h
      split at h
      · rename_i r2 hnest
        simp only [Option.some.injEq, Prod.mk.injEq] at h
        obtain ⟨-, rfl⟩ := h
        obtain ⟨hbound, hfree⟩ := Handle_unmarked_last c d _ s.lastAction r2.1 r2.2 hlast h46 hnest
        simp only at hbound hfree
        cases hfind : find Table.Default s.lastAction with
        | none =>
          obtain ⟨h1, h2⟩ := hfree hfind
          exact ⟨h1, fun _ => h2, fun _ => h2, fun _ e => absurd e (by simp)⟩
        | some a =>
          obtain ⟨h1, h2⟩ := hbound (by rw [hfind]; rfl)
          refine ⟨h1, fun hz => ?_, fun e => absurd e (by simp), fun hp _ => ?_⟩
          · rw [h2, if_neg (by omega)]
          · rw [h2, if_pos hp]
      · exact absurd h (by simp)

/-- C9, amended, at a concrete input: `'.'` with no pending count after
`'j'` was dispatched with count 3 leaves `LastAction = {'j', 3}`. -/
theorem repeat_keeps_last_key_witness :
    (Table.Default = Table.Default ∧ 106 < ESCAPE_MARKER)
      ∧ (Handle (recorder true) 2
          { actionCount := 0, lastAction := 106, lastActionCount := 3,
            wasSpecificCount := true, action := Table.Default, world := [], trace := [] }
          46).map (fun r => (r.2.lastAction, r.2.lastActionCount)) = some (106, 3) := by
  refine ⟨⟨rfl, by decide⟩, ?_⟩
  have key := repeat_keeps_last_key (recorder true)
    { actionCount := 0, lastAction := 106, lastActionCount := 3,
      wasSpecificCount := true, action := Table.Default, world := [], trace := [] }
    rfl (by decide)
  obtain ⟨r, t, hH⟩ := key.2 (by decide) 0
  obtain ⟨h1, h2, -, -⟩ := key.1 2 r t hH
  rw [hH]
  simp only [Option.map_some', h1, h2 rfl]

/-- C10: let the `Default` table be active and `LastAction = {k, c0}` with `k`
bound in `actionTable_` to the member `a` and `k` not `'.'`. `Handle` of `'.'`
with a pending count `n > 0` calls `RepeatLastAction` and then, in the nested
call, `a` exactly once with count `n` and `wasSpecificCount_` true; with no
pending count it calls `a` exactly once with count `max(c0, 1)` and
`wasSpecificCount_ = (c0 != 0)`; both times `a` changes only the world and
`Handle` returns success after both repaints. When no key has been remembered
(key 0) `Handle` of `'.'` calls `RepeatLastAction` only, repaints and returns
success. -/
theorem repeat_redispatches {W : Type} (c : Collab W) (depth : Nat) (s : Normal W)
    (htable : s.action = .Default) :
    (∀ a, find .Default s.lastAction = some a → s.lastAction ≠ 46 → 0 < s.actionCount →
        ∃ r w,
          (∀ h, invoke c h a
              { s with
                wasSpecificCount := true
                lastActionCount := s.actionCount
                trace := s.trace ++ [⟨.RepeatLastAction, s.actionCount, true⟩,
                  ⟨a, s.actionCount, true⟩] }
              s.actionCount =
            some (r,
              { s with
                wasSpecificCount := true
                lastActionCount := s.actionCount
                trace := s.trace ++ [⟨.RepeatLastAction, s.actionCount, true⟩,
                  ⟨a, s.actionCount, true⟩]
                world := w }))
          ∧ Handle c (depth + 2) s 46 =
            some (true,
              { s with
                actionCount := 0
                wasSpecificCount := true
                lastActionCount := s.actionCount
                trace := s.trace ++ [⟨.RepeatLastAction, s.actionCount, true⟩,
                  ⟨a, s.actionCount, true⟩]
                world := c.exec .ScreenUpdate (c.exec .ModeWindowSetLine
                  (c.exec .ScreenUpdate (c.exec .ModeWindowSetLine w))) }))
      ∧ (∀ a, find .Default s.lastAction = some a → s.lastAction ≠ 46 → s.actionCount = 0 →
        ∃ r w,
          (∀ h, invoke c h a
              { s with
                actionCount := s.lastActionCount
                wasSpecificCount := decide (s.lastActionCount ≠ 0)
                trace := s.trace ++ [⟨.RepeatLastAction, 1, false⟩,
                  ⟨a, max s.lastActionCount 1, decide (s.lastActionCount ≠ 0)⟩] }
              (max s.lastActionCount 1) =
            some (r,
              { s with
                actionCount := s.lastActionCount
                wasSpecificCount := decide (s.lastActionCount ≠ 0)
                trace := s.trace ++ [⟨.RepeatLastAction, 1, false⟩,
                  ⟨a, max s.lastActionCount 1, decide (s.lastActionCount ≠ 0)⟩]
                world := w }))
          ∧ Handle c (depth + 2) s 46 =
            some (true,
              { s with
                actionCount := 0
                wasSpecificCount := decide (s.lastActionCount ≠ 0)
                trace := s.trace ++ [⟨.RepeatLastAction, 1, false⟩,
                  ⟨a, max s.lastActionCount 1, decide (s.lastActionCount ≠ 0)⟩]
                world := c.exec .ScreenUpdate (c.exec .ModeWindowSetLine
                  (c.exec .ScreenUpdate (c.exec .ModeWindowSetLine w))) }))
      ∧ (s.lastAction = 0 →
          Handle c (depth + 1) s 46 =
            some (true,
              { s with
                actionCount := 0
                wasSpecificCount := decide (s.actionCount ≠ 0)
                trace := s.trace ++ [⟨.RepeatLastAction, max s.actionCount 1,
                  decide (s.actionCount ≠ 0)⟩]
                world := c.exec .ScreenUpdate (c.exec .ModeWindowSetLine s.world) })) := by
  refine ⟨?_, ?_, ?_⟩
  · intro a hfind h46 hpos
    obtain ⟨r, w, hinv, hH⟩ := Handle_repeat_member c depth s a s.actionCount htable hfind h46
      (by rw [if_pos hpos])
    have hne : s.actionCount ≠ 0 := by omega
    have hmax : max s.actionCount 1 = s.actionCount := by omega
    simp only [hmax, ne_eq, hne, not_false_eq_true, decide_True] at hinv hH
    exact ⟨r, w, hinv, hH⟩
  · intro a hfind h46 hzero
    obtain ⟨r, w, hinv, hH⟩ := Handle_repeat_member c depth s a s.lastActionCount htable hfind
      h46 (by rw [if_neg (by omega)])
    obtain ⟨n, k, m, b, tb, w0, tr⟩ := s
    simp only at hzero
    subst hzero
    exact ⟨r, w, hinv, hH⟩
  · intro h0
    have hrep : find (tableFor s.action 46) (keyOf 46) = some .RepeatLastAction := by
      rw [htable]; decide
    rw [Handle_repeat c depth s 46 hrep, if_neg (by simpa using h0)]
    simp only [count_eq_max, htable]

/-- C10 at a concrete input: with `LastAction = {'j', 2}` and pending count 5,
`'.'` scrolls down by 5 lines once. -/
theorem repeat_redispatches_witness :
    Table.Default = Table.Default
      ∧ (Handle (recorder true) 2
          { actionCount := 5, lastAction := 106, lastActionCount := 2,
            wasSpecificCount := false, action := Table.Default, world := [], trace := [] }
          46).map (fun r => (r.1, r.2.trace))
        = some (true, [⟨Action.RepeatLastAction, 5, true⟩,
            ⟨Action.Scroll Size.Line Direction.Down, 5, true⟩])
      ∧ (Handle (recorder true) 2
          { actionCount := 5, lastAction := 106, lastActionCount := 2,
            wasSpecificCount := false, action := Table.Default, world := [], trace := [] }
          46).map (fun r => r.2.world)
        = some [Call.ScreenScroll Size.Line Direction.Down 5, Call.ModeWindowSetLine,
            Call.ScreenUpdate, Call.ModeWindowSetLine, Call.ScreenUpdate] := by
  refine ⟨rfl, ?_, by decide⟩
  obtain ⟨r, w, -, hH⟩ := (repeat_redispatches (recorder true) 0
    { actionCount := 5, lastAction := 106, lastActionCount := 2,
      wasSpecificCount := false, action := Table.Default, world := [], trace := [] }
    rfl).1 (Action.Scroll Size.Line Direction.Down) (by decide) (by decide) (by decide)
  rw [hH]
  rfl

/-- C20: in every state reachable from the constructor's state by calls of
`Handle`, the remembered key is never `'.'`; so `Handle` of any key returns
with at most one nested `Handle` call (two levels suffice and more levels
change nothing), and the members it calls, at most two, include
`RepeatLastAction` at most once. -/
theorem reachable_no_repeat_loop {W : Type} (c : Collab W) (s : Normal W)
    (hs : Reachable c s) (input : Nat) :
    s.lastAction ≠ 46
      ∧ ∃ r t, Handle c 2 s input = some (r, t)
          ∧ (∀ depth, Handle c (depth + 2) s input = some (r, t))
          ∧ ∃ added, t.trace = s.trace ++ added ∧ added.length ≤ 2
              ∧ added.countP (fun i => decide (i.actionFunc = .RepeatLastAction)) ≤ 1 := by
  have hl := Reachable_lastAction c hs
  obtain ⟨r, t, hH⟩ := Handle_returns c 0 s input hl
  refine ⟨hl, r, t, hH, fun depth => ?_, (Handle_trace c 2 s input r t hl hH).1⟩
  rw [Handle_depth_two c depth s input hl]
  exact hH

/-- C20 at a concrete input: after `'j'` the key `'.'` is handled with one
nested call. -/
theorem reachable_no_repeat_loop_witness :
    Reachable (recorder true)
        { actionCount := 0, lastAction := 106, lastActionCount := 0,
          wasSpecificCount := false, action := Table.Default,
          world := [Call.ScreenScroll Size.Line Direction.Down 1, Call.ModeWindowSetLine,
            Call.ScreenUpdate],
          trace := [⟨Action.Scroll Size.Line Direction.Down, 1, false⟩] }
      ∧ ∃ r t, Handle (recorder true) 2
          { actionCount := 0, lastAction := 106, lastActionCount := 0,
            wasSpecificCount := false, action := Table.Default,
            world := [Call.ScreenScroll Size.Line Direction.Down 1, Call.ModeWindowSetLine,
              Call.ScreenUpdate],
            trace := [⟨Action.Scroll Size.Line Direction.Down, 1, false⟩] } 46 = some (r, t) :=
  have hs : Reachable (recorder true)
      { actionCount := 0, lastAction := 106, lastActionCount := 0,
        wasSpecificCount := false, action := Table.Default,
        world := [Call.ScreenScroll Size.Line Direction.Down 1, Call.ModeWindowSetLine,
          Call.ScreenUpdate],
        trace := [⟨Action.Scroll Size.Line Direction.Down, 1, false⟩] } :=
    @Reachable.step _ (recorder true) _ _ 1 106 true (Reachable.init []) rfl
  ⟨hs, (reachable_no_repeat_loop (recorder true) _ hs 46).2.imp
    (fun _ h => h.imp (fun _ h2 => h2.1))⟩

/-- C13: with the `Default` table active, `'G'` (bound to
`ScrollTo<Specific, Bottom>`) dispatched with no pending count makes exactly
the collaborator call of `ScrollTo<Bottom>` (the binding of `KEY_END`),
`screen_.ScrollTo(Bottom)` with no line; dispatched with a pending count
`n > 0` it makes exactly the call `screen_.ScrollTo(Specific, n)`. The same
holds for `'g'` `'g'` with the fallback `Top` (the binding of `KEY_HOME`). At
the level of the member functions, `ScrollTo<Specific, E>` is `ScrollTo<E>`
when `wasSpecificCount_` is false. -/
theorem ScrollTo_specific_or_fallback {W : Type} (c : Collab W) (depth : Nat) (s : Normal W)
    (htable : s.action = .Default) :
    (∀ e n, s.wasSpecificCount = false →
        ScrollToSpecific c .Specific e s n = ScrollTo c e s n)
      ∧ (∀ e n, s.wasSpecificCount = true →
        ScrollToSpecific c .Specific e s n = (true, s.call c (.ScreenScrollToSpecific .Specific n)))
      ∧ (s.actionCount = 0 →
        (Handle c (depth + 1) s 71).map (fun r => (r.1, r.2.world))
            = some (true, c.exec .ScreenUpdate (c.exec .ModeWindowSetLine
                (c.exec (.ScreenScrollTo .Bottom) s.world)))
          ∧ (Handle c (depth + 1) s KEY_END).map (fun r => (r.1, r.2.world))
            = (Handle c (depth + 1) s 71).map (fun r => (r.1, r.2.world))
          ∧ (HandleKeys c (depth + 1) s [103, 103]).map (fun t => t.world)
            = some (c.exec .ScreenUpdate (c.exec .ModeWindowSetLine
                (c.exec (.ScreenScrollTo .Top) s.world)))
          ∧ (Handle c (depth + 1) s KEY_HOME).map (fun r => r.2.world)
            = (HandleKeys c (depth + 1) s [103, 103]).map (fun t => t.world))
      ∧ (0 < s.actionCount →
        (Handle c (depth + 1) s 71).map (fun r => (r.1, r.2.world))
            = some (true, c.exec .ScreenUpdate (c.exec .ModeWindowSetLine
                (c.exec (.ScreenScrollToSpecific .Specific s.actionCount) s.world)))
          ∧ (HandleKeys c (depth + 1) s [103, 103]).map (fun t => t.world)
            = some (c.exec .ScreenUpdate (c.exec .ModeWindowSetLine
                (c.exec (.ScreenScrollToSpecific .Specific s.actionCount) s.world)))) := by
  obtain ⟨n, k, m, b, tb, w, tr⟩ := s
  simp only at htable
  subst htable
  have hG : find (tableFor Table.Default 71) (keyOf 71)
      = some (.ScrollToSpecific .Specific .Bottom) := by decide
  have hEnd : find (tableFor Table.Default KEY_END) (keyOf KEY_END)
      = some (.ScrollTo .Bottom) := by decide
  have hHome : find (tableFor Table.Default KEY_HOME) (keyOf KEY_HOME)
      = some (.ScrollTo .Top) := by decide
  have hg1 : ∀ (n k m : Nat) (b : Bool) (tr : List Invocation),
      Handle c (depth + 1)
        ({ actionCount := n, lastAction := k, lastActionCount := m, wasSpecificCount := b,
           action := .Default, world := w, trace := tr } : Normal W) 103
      = some (true,
          { actionCount := n, lastAction := k, lastActionCount := m, wasSpecificCount := b,
            action := .Jump, world := w, trace := tr }) := by
    intro n k m b tr
    rw [Handle_unbound c depth _ 103
      (by show ¬ (48 ≤ keyOf 103 ∧ keyOf 103 ≤ 57 ∧ tableFor Table.Default 103 ≠ .Escape); decide)
      (by decide)
      (by show find (tableFor Table.Default 103) (keyOf 103) = none; decide)]
    rfl
  have hg2 : find (tableFor Table.Jump 103) (keyOf 103)
      = some (.ScrollToSpecific .Specific .Top) := by decide
  refine ⟨?_, ?_, ?_, ?_⟩
  · intro e n hb
    simp only at hb
    simp only [ScrollToSpecific, hb, and_self, if_true, ScrollTo]
  · intro e n hb
    simp only at hb
    simp only [ScrollToSpecific, hb, Bool.true_eq_false, and_false, if_false]
  · intro h0
    simp only at h0
    subst h0
    refine ⟨?_, ?_, ?_, ?_⟩
    · rw [Handle_bound c depth _ 71 _ hG]; rfl
    · rw [Handle_bound c depth _ 71 _ hG, Handle_bound c depth _ KEY_END _ hEnd]; rfl
    · simp only [HandleKeys, hg1]
      rw [Handle_bound c depth _ 103 _ hg2]; rfl
    · simp only [HandleKeys, hg1]
      rw [Handle_bound c depth _ 103 _ hg2, Handle_bound c depth _ KEY_HOME _ hHome]; rfl
  · intro hpos
    simp only at hpos
    have hne : n ≠ 0 := by omega
    refine ⟨?_, ?_⟩
    · rw [Handle_bound c depth _ 71 _ hG]
      simp [invoke, ScrollToSpecific, Normal.call, hne, hpos]
    · simp only [HandleKeys, hg1]
      rw [Handle_bound c depth _ 103 _ hg2]
      simp [invoke, ScrollToSpecific, Normal.call, hne, hpos]

/-- C13 at a concrete input: from the constructor's state `'5'` `'G'` makes
the call `screen_.ScrollTo(Specific, 5)`, and `'G'` alone the call
`screen_.ScrollTo(Bottom)`. -/
theorem ScrollTo_specific_or_fallback_witness :
    (Normal.init ([] : List Call)).action = Table.Default
      ∧ (Handle (recorder true) 1 (Normal.init []) 71).map (fun r => (r.1, r.2.world))
        = some (true, [Call.ScreenScrollTo Location.Bottom, Call.ModeWindowSetLine,
            Call.ScreenUpdate])
      ∧ (HandleKeys (recorder true) 1 (Normal.init []) [53, 71]).map (fun t => t.world)
        = some [Call.ScreenScrollToSpecific Location.Specific 5, Call.ModeWindowSetLine,
            Call.ScreenUpdate] :=
  ⟨rfl, ((ScrollTo_specific_or_fallback (recorder true) 0 (Normal.init []) rfl).2.2.1 rfl).1,
    by decide⟩

/-- C19: with the `Jump` table active and a pending count that fits 32 bits,
`'t'` (`SetActiveWindow<Next, 0>`) dispatched with an explicit count `n` makes
the single call `screen_.SetActiveWindow` of window `n - 1`, and `'T'`
(`SetActiveWindow<Previous, 0>`), when `VisibleWindows() > 0`, makes exactly
`n mod VisibleWindows()` calls `screen_.SetActiveWindow(Previous)`;
dispatched with no pending count each makes exactly one relative call in its
direction. -/
theorem window_switch_steps {W : Type} (c : Collab W) (depth : Nat) (s : Normal W)
    (htable : s.action = .Jump) (hcount : s.actionCount ≤ UINT32_MAX) :
    (0 < s.actionCount →
        (Handle c (depth + 1) s 116).map (fun r => (r.1, r.2.world))
            = some (true, c.exec .ScreenUpdate (c.exec .ModeWindowSetLine
                (c.exec (.ScreenSetActiveWindow (s.actionCount - 1)) s.world)))
          ∧ (0 < c.ask .VisibleWindows s.world →
            (Handle c (depth + 1) s 84).map (fun r => (r.1, r.2.world))
              = some (true, c.exec .ScreenUpdate (c.exec .ModeWindowSetLine
                  (Nat.iterate (c.exec (.ScreenSkipActiveWindow .Previous))
                    (s.actionCount % c.ask .VisibleWindows s.world) s.world)))))
      ∧ (s.actionCount = 0 →
        (Handle c (depth + 1) s 116).map (fun r => (r.1, r.2.world))
            = some (true, c.exec .ScreenUpdate (c.exec .ModeWindowSetLine
                (c.exec (.ScreenSkipActiveWindow .Next) s.world)))
          ∧ (Handle c (depth + 1) s 84).map (fun r => (r.1, r.2.world))
            = some (true, c.exec .ScreenUpdate (c.exec .ModeWindowSetLine
                (c.exec (.ScreenSkipActiveWindow .Previous) s.world)))) := by
  obtain ⟨n, k, m, b, tb, w, tr⟩ := s
  simp only at htable hcount
  subst htable
  have ht : find (tableFor Table.Jump 116) (keyOf 116) = some (.SetActiveWindow .Next 0) := by
    decide
  have hT : find (tableFor Table.Jump 84) (keyOf 84) = some (.SetActiveWindow .Previous 0) := by
    decide
  refine ⟨fun hpos => ⟨?_, fun _ => ?_⟩, fun h0 => ⟨?_, ?_⟩⟩
  · simp only at hpos
    have hne : n ≠ 0 := by omega
    have hsub : (n + UINT32_MOD - 1) % UINT32_MOD = n - 1 := by
      simp only [UINT32_MOD, UINT32_MAX] at *
      omega
    rw [Handle_bound c depth _ 116 _ ht]
    simp [invoke, SetActiveWindow, Normal.call, hne, hpos, hsub]
  · simp only at hpos
    have hne : n ≠ 0 := by omega
    rw [Handle_bound c depth _ 84 _ hT]
    simp [invoke, SetActiveWindow, Normal.get, hne, hpos, forLoop_call]
  · simp only at h0
    subst h0
    rw [Handle_bound c depth _ 116 _ ht]
    rfl
  · simp only at h0
    subst h0
    rw [Handle_bound c depth _ 84 _ hT]
    rfl

/-- C19 at a concrete input: `'g'` `'3'` `'t'` from the constructor's state
selects window 2 with one call. -/
theorem window_switch_steps_witness :
    (Table.Jump = Table.Jump ∧ 3 ≤ UINT32_MAX)
      ∧ (Handle (recorder true) 1
          { actionCount := 3, lastAction := 0, lastActionCount := 0,
            wasSpecificCount := false, action := Table.Jump, world := [], trace := [] }
          116).map (fun r => (r.1, r.2.world))
        = some (true, [Call.ScreenSetActiveWindow 2, Call.ModeWindowSetLine, Call.ScreenUpdate])
      ∧ (HandleKeys (recorder true) 1 (Normal.init []) [103, 51, 116]).map (fun t => t.world)
        = some [Call.ScreenSetActiveWindow 2, Call.ModeWindowSetLine, Call.ScreenUpdate] :=
  ⟨⟨rfl, by decide⟩,
    ((window_switch_steps (recorder true) 0
      { actionCount := 3, lastAction := 0, lastActionCount := 0,
        wasSpecificCount := false, action := Table.Jump, world := [], trace := [] }
      rfl (by decide)).1 (by decide)).1,
    by decide⟩

/-- C12, as stated, fails for the repeat key: after the keys `'3'` `'j'` the
`Default` table is active with no pending count; `Handle` of `'.'` then fires
`RepeatLastAction` and returns with `wasSpecificCount_` true, although no
count was accumulated before `'.'` arrived. -/
theorem repeat_flag_counterexample :
    (HandleKeys (recorder true) 2 (Normal.init []) [51, 106]).map
        (fun t => (t.action, t.actionCount, t.lastAction, t.lastActionCount))
        = some (Table.Default, 0, 106, 3)
      ∧ (HandleKeys (recorder true) 2 (Normal.init []) [51, 106, 46]).map
        (fun t => t.wasSpecificCount) = some true :=
  ⟨by decide, by decide⟩

/-- C12, amended: after every returning `Handle` call in which a key bound to
a member other than `RepeatLastAction` fires, `wasSpecificCount_` is true
exactly when the pending count before the key was non-zero (and the call does
return, unless `'.'` is the remembered key). After a call in
which the repeat key fires `RepeatLastAction` (remembered key without the
escape marker), the flag is true exactly when the count used for the replay
is non-zero, that is the pending count if one was typed and the remembered
count otherwise, provided the remembered key is bound in `actionTable_`; when
it is not bound there the flag is true exactly when the pending count was
non-zero. -/
theorem flag_after_dispatch {W : Type} (c : Collab W) (s : Normal W) (input : Nat)
    (a : Action) (hbound : find (tableFor s.action input) (keyOf input) = some a) :
    (∀ depth r t, Handle c depth s input = some (r, t) →
      (a ≠ .RepeatLastAction → (t.wasSpecificCount = true ↔ s.actionCount ≠ 0))
        ∧ (a = .RepeatLastAction → s.lastAction < ESCAPE_MARKER →
            ((find .Default s.lastAction).isSome = true →
                (t.wasSpecificCount = true ↔
                  (if s.actionCount > 0 then s.actionCount else s.lastActionCount) ≠ 0))
              ∧ (find .Default s.lastAction = none →
                (t.wasSpecificCount = true ↔ s.actionCount ≠ 0))))
      ∧ (s.lastAction ≠ 46 → ∀ depth, ∃ r t, Handle c (depth + 2) s input = some (r, t)) := by
  refine ⟨?_, fun h depth => Handle_returns c depth s input h⟩
  intro depth r t hret
  cases depth with
  | zero => exact absurd hret (by simp [Handle])
  | succ d =>
    refine ⟨fun ha => ?_, fun ha hlast => ?_⟩
    · obtain ⟨r2, w, -, hH⟩ := Handle_member c d s input a hbound ha
      rw [hH] at hret
      simp only [Option.some.injEq, Prod.mk.injEq] at hret
      obtain ⟨-, rfl⟩ := hret
      simp
    · subst ha
      have htable : s.action = .Default := by
        have h1 := ((find_some hbound).2.2.2 rfl).1
        by_cases hm : hasEscapeMarker input = true
        · rw [tableFor_marked _ hm] at h1
          exact absurd h1 (by decide)
        · simpa [tableFor, hm] using h1
      have h46 : s.lastAction ≠ 46 := by
        intro e
        have hin : input = 46 := by
          have h2 := ((find_some hbound).2.2.2 rfl).2
          by_cases hm : hasEscapeMarker input = true
          · have h1 := ((find_some hbound).2.2.2 rfl).1
            rw [tableFor_marked _ hm] at h1
            exact absurd h1 (by decide)
          · simpa [keyOf, hm] using h2
        rw [hin, Handle_repeat_diverges c (d + 1) s htable e] at hret
        exact absurd hret (by simp)
      rw [Handle_repeat c d s input hbound] at hret
      by_cases h0 : s.lastAction = 0
      · rw [if_neg (show ¬ s.lastAction ≠ 0 from fun h => h h0)] at hret
        simp only [Option.some.injEq, Prod.mk.injEq] at hret
        obtain ⟨-, rfl⟩ := hret
        have hnone : find Table.Default 0 = none := by decide
        refine ⟨fun hsome => ?_, fun _ => by simp⟩
        rw [h0, hnone] at hsome
        exact absurd hsome (by simp)
      · rw [if_pos (show s.lastAction ≠ 0 from h0)] at hret
        split at hret
        · rename_i r2 hnest
          simp only [Option.some.injEq, Prod.mk.injEq] at hret
          obtain ⟨-, rfl⟩ := hret
          obtain ⟨hb, hf⟩ := Handle_unmarked_flag c d _ s.lastAction r2.1 r2.2 hlast h46 hnest
          simp only at hb hf
          refine ⟨fun hsome => ?_, fun hnone => ?_⟩
          · show r2.2.wasSpecificCount = true ↔ _
            rw [hb hsome]
            simp
          · show r2.2.wasSpecificCount = true ↔ _
            rw [hf hnone]
            simp
        · exact absurd hret (by simp)

/-- C12, amended, at a concrete input: `'.'` with no pending count after
`'j'` was dispatched with count 3 leaves the flag true. -/
theorem flag_after_dispatch_witness :
    (find (tableFor Table.Default 46) (keyOf 46) = some Action.RepeatLastAction
        ∧ Handle (recorder true) 2
            { actionCount := 0, lastAction := 106, lastActionCount := 3,
              wasSpecificCount := false, action := Table.Default, world := [], trace := [] } 46
          = some (true,
            { actionCount := 0, lastAction := 106, lastActionCount := 3,
              wasSpecificCount := true, action := Table.Default,
              world := [Call.ScreenScroll Size.Line Direction.Down 3, Call.ModeWindowSetLine,
                Call.ScreenUpdate, Call.ModeWindowSetLine, Call.ScreenUpdate],
              trace := [⟨Action.RepeatLastAction, 1, false⟩,
                ⟨Action.Scroll Size.Line Direction.Down, 3, true⟩] }))
      ∧ (true = true ↔ (if 0 > 0 then 0 else 3) ≠ 0) :=
  ⟨⟨by decide, rfl⟩,
    (((flag_after_dispatch (recorder true)
      { actionCount := 0, lastAction := 106, lastActionCount := 3,
        wasSpecificCount := false, action := Table.Default, world := [], trace := [] }
      46 Action.RepeatLastAction (by decide)).1 2 true _ rfl).2 rfl (by decide)).1 (by decide)⟩

/-- C11 on the code. For a key other than `'.'` dispatched from
`actionTable_`, pressing `'.'` twice replays the same member both times, with
the remembered count, and a count typed before the first `'.'` is the one
used (first two parts). For keys dispatched from the other three tables the
replay fails, because the nested `Handle(lastAction_)` looks the key up in
`actionTable_`: after `'g'` `'g'` the two `'.'` call `RepeatLastAction` only;
after `'z'` `'\n'` (`AlignTo<Top>`) `'.'` calls `Confirm`; after
escape-marked `'5'` (`SetActiveWindow<Absolute, 4>`) `'.'` calls
`RepeatLastAction` only. -/
theorem repeat_replays_from_default_only :
    (∀ {W : Type} (c : Collab W) (depth : Nat) (s : Normal W) (k : Nat) (a : Action),
        s.action = .Default → find .Default k = some a → k ≠ 46 →
        (HandleKeys c (depth + 2) s [k, 46, 46]).map (fun t => t.trace)
          = some (s.trace ++
              [⟨a, max s.actionCount 1, decide (s.actionCount ≠ 0)⟩,
               ⟨.RepeatLastAction, 1, false⟩,
               ⟨a, max s.actionCount 1, decide (s.actionCount ≠ 0)⟩,
               ⟨.RepeatLastAction, 1, false⟩,
               ⟨a, max s.actionCount 1, decide (s.actionCount ≠ 0)⟩]))
      ∧ (∀ {W : Type} (c : Collab W) (depth : Nat) (s : Normal W) (k : Nat) (a : Action),
        s.action = .Default → find .Default k = some a → k ≠ 46 →
        (HandleKeys c (depth + 2) s [k, 51, 46, 46]).map (fun t => t.trace)
          = some (s.trace ++
              [⟨a, max s.actionCount 1, decide (s.actionCount ≠ 0)⟩,
               ⟨.RepeatLastAction, 3, true⟩,
               ⟨a, 3, true⟩,
               ⟨.RepeatLastAction, 1, false⟩,
               ⟨a, 3, true⟩]))
      ∧ (HandleKeys (recorder true) 2 (Normal.init []) [103, 103, 46, 46]).map
          (fun t => t.trace)
        = some [⟨.ScrollToSpecific .Specific .Top, 1, false⟩,
            ⟨.RepeatLastAction, 1, false⟩, ⟨.RepeatLastAction, 1, false⟩]
      ∧ (HandleKeys (recorder true) 2 (Normal.init []) [122, 10, 46]).map
          (fun t => t.trace)
        = some [⟨.AlignTo .Top, 1, false⟩, ⟨.RepeatLastAction, 1, false⟩,
            ⟨.Confirm, 1, false⟩]
      ∧ (HandleKeys (recorder true) 2 (Normal.init []) [53 + ESCAPE_MARKER, 46]).map
          (fun t => t.trace)
        = some [⟨.SetActiveWindow .Absolute 4, 1, false⟩, ⟨.RepeatLastAction, 1, false⟩] := by
  refine ⟨?_, ?_, by decide, by decide, by decide⟩
  · intro W c depth s k a htable hfind h46
    obtain ⟨r1, t1, h1, ht1, hc1, hl1, hm1, htr1⟩ :=
      dispatch_step c (depth + 1) s k a htable hfind h46
    obtain ⟨t2, h2, ht2, hc2, hl2, hm2, htr2⟩ := repeat_step c depth t1 a s.actionCount ht1
      (by rw [hl1]; exact hfind) (by rw [hl1]; exact h46) (by rw [hc1, hm1]; rfl)
    obtain ⟨t3, h3, ht3, hc3, hl3, hm3, htr3⟩ := repeat_step c depth t2 a s.actionCount ht2
      (by rw [hl2, hl1]; exact hfind) (by rw [hl2, hl1]; exact h46) (by rw [hc2, hm2]; rfl)
    simp only [HandleKeys, h1, h2, h3, Option.map_some', htr3, htr2, htr1, hc1, hc2,
      List.append_assoc, List.cons_append, List.nil_append]
    rfl
  · intro W c depth s k a htable hfind h46
    obtain ⟨r1, t1, h1, ht1, hc1, hl1, hm1, htr1⟩ :=
      dispatch_step c (depth + 1) s k a htable hfind h46
    have hd := Handle_digit_unmarked c (depth + 1) t1 51 (by rw [hc1]; decide) (by decide)
      (by rw [ht1]; decide)
    rw [hc1] at hd
    obtain ⟨t3, h3, ht3, hc3, hl3, hm3, htr3⟩ := repeat_step c depth
      { t1 with actionCount := 3 } a 3 ht1
      (by show find Table.Default t1.lastAction = some a; rw [hl1]; exact hfind)
      (by show t1.lastAction ≠ 46; rw [hl1]; exact h46) rfl
    obtain ⟨t4, h4, ht4, hc4, hl4, hm4, htr4⟩ := repeat_step c depth t3 a 3 ht3
      (by rw [hl3]; show find Table.Default t1.lastAction = some a; rw [hl1]; exact hfind)
      (by rw [hl3]; show t1.lastAction ≠ 46; rw [hl1]; exact h46) (by rw [hc3, hm3]; rfl)
    have hd2 : Handle c (depth + 2) t1 51 = some (true, { t1 with actionCount := 3 }) := hd
    simp only [HandleKeys, h1, hd2, h3, h4, Option.map_some']
    rw [htr4, htr3, hc3]
    simp only [htr1, List.append_assoc, List.cons_append, List.nil_append]
    rfl

/-- C14, as stated, fails for a cursor line from `2^31` on: with the playlist
pane active, the cursor at line 2147483648 and a local playlist of 2147483649
entries, `DeleteSong<Single>` with count 1 removes nothing (the `int32_t`
index of line 348 is negative and the iteration is skipped), while
`min(1, N - c)` is 1. -/
theorem delete_high_cursor_counterexample :
    (DeleteSong session SongCollection.Single
        { actionCount := 0, lastAction := 0, lastActionCount := 0, wasSpecificCount := false,
          action := Table.Default,
          world :=
            { activeWindow := 4, currentLine := 2147483648, visibleWindows := 3,
              playlist := List.replicate 2147483649 7, clipboard := [], daemon := [],
              browse := [] },
          trace := [] } 1).2.world.playlist = List.replicate 2147483649 7
      ∧ (List.replicate 2147483649 7).length = 2147483649
      ∧ min 1 (2147483649 - 2147483648) = 1 := by
  refine ⟨?_, List.length_replicate _ _, by decide⟩
  rw [DeleteSong_single_session_high _ 1 rfl (Nat.le_refl _) (by decide)]

/-- C14, amended: with the playlist pane active, the cursor at a line `c`
below `2^31` and a local playlist `p` of size `N` (modelled collaborators),
`DeleteSong<Single>` with count `n` returns success and leaves the local
playlist `p` without the `min(n, N - c)` consecutive entries
`p[c], ..., p[c+n-1]`, every other entry in its place in the original order;
with the default count 1 (key `'d'` alone in the `Default` table) exactly the
entry at the cursor line is removed. -/
theorem delete_single_removes_block (s : Normal Session) (n : Nat)
    (hpane : s.world.activeWindow = session.Playlist)
    (hline : s.world.currentLine < 2147483648) :
    (DeleteSong session .Single s n).1 = true
      ∧ (DeleteSong session .Single s n).2.world.playlist
        = s.world.playlist.take s.world.currentLine
          ++ s.world.playlist.drop (s.world.currentLine + n)
      ∧ s.world.playlist
        = s.world.playlist.take s.world.currentLine
          ++ ((s.world.playlist.drop s.world.currentLine).take n
            ++ s.world.playlist.drop (s.world.currentLine + n))
      ∧ ((s.world.playlist.drop s.world.currentLine).take n).length
        = min n (s.world.playlist.length - s.world.currentLine)
      ∧ (∀ depth, s.action = .Default → s.actionCount = 0 →
          (Handle session (depth + 1) s 100).map (fun r => (r.1, r.2.world.playlist))
            = some (true, s.world.playlist.take s.world.currentLine
                ++ s.world.playlist.drop (s.world.currentLine + 1))) := by
  have hD := DeleteSong_single_session s n hpane hline
  refine ⟨by rw [hD], by rw [hD], ?_, by simp, ?_⟩
  · rw [← List.drop_drop, List.take_append_drop, List.take_append_drop]
  · intro depth htable hcount
    have hfind : find (tableFor s.action 100) (keyOf 100) = some (.DeleteSong .Single) := by
      rw [htable]; decide
    have key : ∀ t : Normal Session, t.world = s.world →
        DeleteSong session .Single t 1 =
          (true,
            { t with
              world :=
                { s.world with
                  playlist := s.world.playlist.take s.world.currentLine
                    ++ s.world.playlist.drop (s.world.currentLine + 1)
                  clipboard := (s.world.playlist.drop s.world.currentLine).take 1
                  daemon := s.world.daemon.take s.world.currentLine
                    ++ s.world.daemon.drop (s.world.currentLine + 1) } }) := by
      intro t ht
      rw [DeleteSong_single_session t 1 (by rw [ht]; exact hpane) (by rw [ht]; exact hline), ht]
    rw [Handle_bound session depth s 100 _ hfind]
    simp only [invoke, hcount, gt_iff_lt, Nat.lt_irrefl, if_false]
    rw [key]
    · rfl
    · rfl

/-- C14, amended, at a concrete input: `'d'` with count 2 at line 1 of a
playlist of four songs removes the second and third. -/
theorem delete_single_removes_block_witness :
    ((4 : Nat) = session.Playlist ∧ 1 < 2147483648)
      ∧ (DeleteSong session SongCollection.Single
          { actionCount := 0, lastAction := 0, lastActionCount := 0, wasSpecificCount := true,
            action := Table.Default,
            world :=
              { activeWindow := 4, currentLine := 1, visibleWindows := 3,
                playlist := [10, 11, 12, 13], clipboard := [99], daemon := [10, 11, 12, 13],
                browse := [] },
            trace := [] } 2).2.world.playlist = [10, 13] :=
  ⟨⟨rfl, by decide⟩,
    (delete_single_removes_block
      { actionCount := 0, lastAction := 0, lastActionCount := 0, wasSpecificCount := true,
        action := Table.Default,
        world :=
          { activeWindow := 4, currentLine := 1, visibleWindows := 3,
            playlist := [10, 11, 12, 13], clipboard := [99], daemon := [10, 11, 12, 13],
            browse := [] },
        trace := [] } 2 rfl (by decide)).2.1⟩

/-- C15: for every count `n`, every playlist `p` and every prior clipboard
content (modelled collaborators, playlist pane active, cursor line a
`uint32_t`), after `DeleteSong<Single>` the clipboard holds exactly the
entries this call cut out of the playlist at the cursor line `c`, in their
order, and nothing from before: `p` is the new playlist with the clipboard
put back at `c`. For `c < 2^31` these are `p[c], p[c+1], ...`, `n` of them or
as many as there are; from `2^31` on nothing is removed and the clipboard is
empty. -/
theorem delete_single_fills_clipboard (s : Normal Session) (n : Nat)
    (hpane : s.world.activeWindow = session.Playlist)
    (hmax : s.world.currentLine ≤ UINT32_MAX) :
    s.world.playlist
        = (DeleteSong session .Single s n).2.world.playlist.take s.world.currentLine
          ++ (DeleteSong session .Single s n).2.world.clipboard
          ++ (DeleteSong session .Single s n).2.world.playlist.drop s.world.currentLine
      ∧ (s.world.currentLine < 2147483648 →
          (DeleteSong session .Single s n).2.world.clipboard
              = (s.world.playlist.drop s.world.currentLine).take n
            ∧ (DeleteSong session .Single s n).2.world.playlist
              = s.world.playlist.take s.world.currentLine
                ++ s.world.playlist.drop (s.world.currentLine + n))
      ∧ (2147483648 ≤ s.world.currentLine →
          (DeleteSong session .Single s n).2.world.clipboard = []
            ∧ (DeleteSong session .Single s n).2.world.playlist = s.world.playlist) := by
  by_cases hline : s.world.currentLine < 2147483648
  · have hD := DeleteSong_single_session s n hpane hline
    refine ⟨?_, fun _ => by rw [hD]; exact ⟨rfl, rfl⟩, fun h => absurd hline (by omega)⟩
    rw [hD]
    show s.world.playlist
        = (s.world.playlist.take s.world.currentLine
            ++ s.world.playlist.drop (s.world.currentLine + n)).take s.world.currentLine
          ++ (s.world.playlist.drop s.world.currentLine).take n
          ++ (s.world.playlist.take s.world.currentLine
            ++ s.world.playlist.drop (s.world.currentLine + n)).drop s.world.currentLine
    rw [take_cut_block, drop_cut_block, List.append_assoc, ← List.drop_drop,
      List.take_append_drop, List.take_append_drop]
  · have hD := DeleteSong_single_session_high s n hpane (by omega) hmax
    refine ⟨?_, fun h => absurd h hline, fun _ => by rw [hD]; exact ⟨rfl, rfl⟩⟩
    rw [hD]
    show s.world.playlist
        = s.world.playlist.take s.world.currentLine ++ []
          ++ s.world.playlist.drop s.world.currentLine
    rw [List.append_nil, List.take_append_drop]

/-- C15 at a concrete input: count 2 at line 1 of a playlist of four songs,
with a song on the clipboard before, leaves the two removed songs there. -/
theorem delete_single_fills_clipboard_witness :
    ((4 : Nat) = session.Playlist ∧ 1 ≤ UINT32_MAX)
      ∧ (DeleteSong session SongCollection.Single
          { actionCount := 0, lastAction := 0, lastActionCount := 0, wasSpecificCount := true,
            action := Table.Default,
            world :=
              { activeWindow := 4, currentLine := 1, visibleWindows := 3,
                playlist := [10, 11, 12, 13], clipboard := [99], daemon := [10, 11, 12, 13],
                browse := [] },
            trace := [] } 2).2.world.clipboard = [11, 12] :=
  ⟨⟨rfl, by decide⟩,
    ((delete_single_fills_clipboard
      { actionCount := 0, lastAction := 0, lastActionCount := 0, wasSpecificCount := true,
        action := Table.Default,
        world :=
          { activeWindow := 4, currentLine := 1, visibleWindows := 3,
            playlist := [10, 11, 12, 13], clipboard := [99], daemon := [10, 11, 12, 13],
            browse := [] },
        trace := [] } 2 rfl (by decide)).2.1 (by decide)).1⟩

/-- C16: for every count, every active pane and every prior playlist and
clipboard content, `DeleteSong<All>` returns success; on any collaborators its
calls are the paste-buffer clear (twice), the daemon clear `client_.Clear()`
and the local `playlist_.Clear()`, in that order, followed by
`screen_.ScrollTo(currentLine)` unless the browse pane is active; on the
modelled collaborators it leaves the clipboard empty and the local and the
daemon-side playlist of size 0. -/
theorem delete_all_clears {W : Type} (c : Collab W) (s : Normal (W × List Call))
    (t : Normal Session) (n : Nat) :
    (DeleteSong (traced c) .All s n).1 = true
      ∧ (∃ rest, (DeleteSong (traced c) .All s n).2.world.2
            = s.world.2 ++ [Call.PasteBufferClear, Call.PasteBufferClear, Call.ClientClear,
                Call.PlaylistClear] ++ rest
          ∧ (rest = [] ∨ rest = [Call.ScreenScrollToLine (c.ask .CurrentLine s.world.1)]))
      ∧ DeleteSong session .All t n
        = (true, { t with world := { t.world with playlist := [], clipboard := [], daemon := [] } })
      ∧ (DeleteSong session .All t n).2.world.playlist.length = 0
      ∧ (DeleteSong session .All t n).2.world.clipboard = [] := by
  have hS : DeleteSong session .All t n
      = (true, { t with world := { t.world with playlist := [], clipboard := [], daemon := [] } }) := by
    simp only [DeleteSong, or_true, if_true]
    split <;> rfl
  refine ⟨?_, ?_, hS, by rw [hS]; rfl, by rw [hS]⟩
  · simp only [DeleteSong, or_true, if_true]
  · simp only [DeleteSong, or_true, if_true]
    split
    · exact ⟨_, by simp [Normal.call, traced, Normal.get], Or.inr rfl⟩
    · exact ⟨[], by simp [Normal.call, traced], Or.inl rfl⟩

/-- C17, as stated, fails once the 32-bit `position` wraps: with the cursor at
line 0 and the clipboard `[7, 8]`, neither changing during the operation,
`PasteBuffer` with count 2147483649 makes insert number 4294967295 at offset
4294967295 and the next one, number 4294967296 (there are 4294967298), at
offset 0, not at `c + j = 4294967296`: the offsets are not strictly
increasing. -/
theorem paste_wraps_counterexample :
    (PasteBuffer (traced (fixed (paneAnswers 0 [7, 8])))
        { actionCount := 0, lastAction := 0, lastActionCount := 0, wasSpecificCount := true,
          action := Table.Default, world := ((), []), trace := [] } 2147483649).2.world.2[0 + 2 * 4294967295]?
        = some (Call.ClientAdd 8 4294967295)
      ∧ (PasteBuffer (traced (fixed (paneAnswers 0 [7, 8])))
        { actionCount := 0, lastAction := 0, lastActionCount := 0, wasSpecificCount := true,
          action := Table.Default, world := ((), []), trace := [] } 2147483649).2.world.2[0 + 2 * 4294967296]?
        = some (Call.ClientAdd 7 0)
      ∧ 4294967296 < 2147483649 * 2 := by
  have hall := (PasteBuffer_calls (fixed (paneAnswers 0 [7, 8]))
        { actionCount := 0, lastAction := 0, lastActionCount := 0, wasSpecificCount := true,
          action := Table.Default, world := ((), []), trace := [] } 2147483649 (fun _ _ _ _ => ⟨rfl, rfl⟩) (by decide)).2
  have h1 := (hall 4294967295 (by decide)).1
  have h2 := (hall 4294967296 (by decide)).1
  dsimp only at h1 h2
  have a1 : (fixed (paneAnswers 0 [7, 8])).ask (.PasteBufferGet (4294967295
      % (fixed (paneAnswers 0 [7, 8])).ask .PasteBufferSize ())) () = 8 := by decide
  have a2 : ((fixed (paneAnswers 0 [7, 8])).ask .CurrentLine () + 4294967295) % UINT32_MOD
      = 4294967295 := by decide
  have e1 : (fixed (paneAnswers 0 [7, 8])).ask (.PasteBufferGet (4294967296
      % (fixed (paneAnswers 0 [7, 8])).ask .PasteBufferSize ())) () = 7 := by decide
  have e2 : ((fixed (paneAnswers 0 [7, 8])).ask .CurrentLine () + 4294967296) % UINT32_MOD
      = 0 := by decide
  rw [a1, a2, List.length_nil] at h1
  rw [e1, e2, List.length_nil] at h2
  exact ⟨h1, h2, by decide⟩

/-- C17, amended: for every count `n`, every clipboard content `b` of size
`k` (a `uint32_t`) and cursor line `c`, on collaborators whose `client_.Add`
and `Playlist().Add` leave the getters (cursor line, clipboard) as they are,
and as long as `c + n*k` does not exceed `2^32`: `PasteBuffer` returns success
and makes exactly `n*k` inserts, each a `client_.Add` immediately followed by
a `Playlist().Add`; insert `j` (`j = 0 .. n*k-1`) inserts `b[j mod k]` at
offset `c + j`, so the inserts are `n` repeats of `b` in order at strictly
increasing offsets; afterwards the getters, the clipboard among them, read
what they read before. -/
theorem paste_inserts {W : Type} (c : Collab W) (s : Normal (W × List Call)) (n : Nat)
    (hstable : ∀ (song position : Nat) (w : W) (q : Query),
      c.ask q (c.exec (.ClientAdd song position) w) = c.ask q w
        ∧ c.ask q (c.exec (.PlaylistAdd song position) w) = c.ask q w)
    (hsize : c.ask .PasteBufferSize s.world.1 ≤ UINT32_MAX)
    (hfit : c.ask .CurrentLine s.world.1 + n * c.ask .PasteBufferSize s.world.1 ≤ UINT32_MOD) :
    (PasteBuffer (traced c) s n).1 = true
      ∧ (PasteBuffer (traced c) s n).2.world.2.length
        = s.world.2.length + 2 * (n * c.ask .PasteBufferSize s.world.1)
      ∧ (∀ j, j < n * c.ask .PasteBufferSize s.world.1 →
          (PasteBuffer (traced c) s n).2.world.2[s.world.2.length + 2 * j]?
              = some (Call.ClientAdd
                  (c.ask (.PasteBufferGet (j % c.ask .PasteBufferSize s.world.1)) s.world.1)
                  (c.ask .CurrentLine s.world.1 + j))
            ∧ (PasteBuffer (traced c) s n).2.world.2[s.world.2.length + 2 * j + 1]?
              = some (Call.PlaylistAdd
                  (c.ask (.PasteBufferGet (j % c.ask .PasteBufferSize s.world.1)) s.world.1)
                  (c.ask .CurrentLine s.world.1 + j)))
      ∧ (∀ q, c.ask q (PasteBuffer (traced c) s n).2.world.1 = c.ask q s.world.1) := by
  obtain ⟨hlen, hcalls⟩ := PasteBuffer_calls c s n hstable hsize
  refine ⟨rfl, hlen, fun j hj => ?_, (PasteBuffer_log c s n hstable hsize).1⟩
  have hmod : (c.ask .CurrentLine s.world.1 + j) % UINT32_MOD
      = c.ask .CurrentLine s.world.1 + j := Nat.mod_eq_of_lt (by omega)
  have h := hcalls j hj
  rw [hmod] at h
  exact h

/-- Witness for C17: cursor on line 1, clipboard `[7, 8]`, count 2, on
collaborators at rest: the hypotheses hold, `PasteBuffer` succeeds and logs 8
calls, and its last insert, number 3, puts `b[1] = 8` at offset 4. -/
theorem paste_inserts_witness :
    (fixed (paneAnswers 1 [7, 8])).ask .PasteBufferSize () ≤ UINT32_MAX
      ∧ (fixed (paneAnswers 1 [7, 8])).ask .CurrentLine ()
          + 2 * (fixed (paneAnswers 1 [7, 8])).ask .PasteBufferSize () ≤ UINT32_MOD
      ∧ (PasteBuffer (traced (fixed (paneAnswers 1 [7, 8])))
        { actionCount := 0, lastAction := 0, lastActionCount := 0, wasSpecificCount := true,
          action := Table.Default, world := ((), []), trace := [] } 2).1 = true
      ∧ (PasteBuffer (traced (fixed (paneAnswers 1 [7, 8])))
        { actionCount := 0, lastAction := 0, lastActionCount := 0, wasSpecificCount := true,
          action := Table.Default, world := ((), []), trace := [] } 2).2.world.2.length = 8
      ∧ (PasteBuffer (traced (fixed (paneAnswers 1 [7, 8])))
        { actionCount := 0, lastAction := 0, lastActionCount := 0, wasSpecificCount := true,
          action := Table.Default, world := ((), []), trace := [] } 2).2.world.2[0 + 2 * 3]? = some (Call.ClientAdd 8 4)
      ∧ (PasteBuffer (traced (fixed (paneAnswers 1 [7, 8])))
        { actionCount := 0, lastAction := 0, lastActionCount := 0, wasSpecificCount := true,
          action := Table.Default, world := ((), []), trace := [] } 2).2.world.2[0 + 2 * 3 + 1]? = some (Call.PlaylistAdd 8 4) := by
  have h := paste_inserts (fixed (paneAnswers 1 [7, 8]))
        { actionCount := 0, lastAction := 0, lastActionCount := 0, wasSpecificCount := true,
          action := Table.Default, world := ((), []), trace := [] } 2 (fun _ _ _ _ => ⟨rfl, rfl⟩) (by decide) (by decide)
  exact ⟨by decide, by decide, h.1, h.2.1, (h.2.2.1 3 (by decide)).1, (h.2.2.1 3 (by decide)).2⟩

end Vimpc
